import Mathlib

/-!
Verification of the frame/audio transformation pipeline of `Dedup/dedup.py`
(video dedup tool).  The Python source is shallowly embedded: pure helper
functions become Lean functions over `ℕ`/`ℤ`/`ℚ`/`ℝ`; frames are an explicit
structure (height, width, pixel map); raising code returns `Except`;
calls into external libraries (OpenCV/PIL pixel kernels, pydub splitting,
numpy random draws) are abstracted as explicit parameters whose dimension
behaviour is that of the library contract, while all control flow, guards,
slicing and index arithmetic of the source are modelled concretely.
-/

namespace Dedup

/-- Python float-to-int conversion `int(x)` on a rational value: truncation
toward zero. -/
def pyTrunc (q : ℚ) : ℤ :=
  if 0 ≤ q then ⌊q⌋ else -⌊-q⌋

/-- Numpy cast of a nonnegative float to `uint8` (`.astype(np.uint8)`):
truncation toward zero, reduced mod 256. -/
noncomputable def uint8OfReal (r : ℝ) : ℕ :=
  (⌊r⌋).toNat % 256

/-- The pixel type: a BGR (or RGB, depending on pipeline position) byte
triple. -/
abbrev Pixel : Type := ℕ × ℕ × ℕ

/-- A decoded video frame: raster height, width and the pixel map
(`px i j` is the pixel at row `i`, column `j`). -/
@[ext]
structure Frame where
  h : ℕ
  w : ℕ
  px : ℕ → ℕ → Pixel

instance : Inhabited Frame := ⟨⟨0, 0, fun _ _ => default⟩⟩

/-!  C4 — the frame-swap index remap `get_original_idx` (dedup.py 1764-1773).
Python `//` and `%` on a positive divisor agree with `Int.ediv` / `Int.emod`
(both give the floor quotient and a nonnegative remainder); the
`interval <= 0` guard covers every other divisor. -/

/-- Embedding of `get_original_idx(output_idx, interval, total_frames)`;
`enableSwap` is the captured `self.config.enable_frame_swap`. -/
def get_original_idx (enableSwap : Bool) (output_idx interval total_frames : ℤ) : ℤ :=
  if interval ≤ 0 ∨ enableSwap = false then output_idx
  else
    let k := output_idx / interval
    if output_idx % interval = 0 ∧ k * interval + 1 < total_frames then k * interval + 1
    else if output_idx % interval = 1 ∧ k * interval + 1 < total_frames then k * interval
    else output_idx

/-!  C7 — `get_watermark_position` (dedup.py 864-932).  The Python float
`progress = frame_index / total_frames` and the products `range_* * progress`
are modelled in exact rational arithmetic; `int(...)` is `pyTrunc` and the
Python floor division `// 2` on integers is `Int.fdiv`.  The `random` branch
draws `x`, `y` uniformly within the margins; the draw is passed in as
`randXY`. -/

/-- Embedding of `VideoEffects.get_watermark_position`. -/
def get_watermark_position (randXY : ℤ × ℤ) (direction : String)
    (frame_index total_frames video_width video_height
     watermark_width watermark_height : ℤ) : ℤ × ℤ :=
  let MARGIN : ℤ := 20
  if direction = "random" then randXY
  else
    let progress : ℚ := (frame_index : ℚ) / (total_frames : ℚ)
    let range_x : ℤ := video_width - watermark_width - 2 * MARGIN
    let range_y : ℤ := video_height - watermark_height - 2 * MARGIN
    if direction = "left_to_right" then
      (MARGIN + pyTrunc ((range_x : ℚ) * progress),
       Int.fdiv (video_height - watermark_height) 2)
    else if direction = "right_to_left" then
      (video_width - MARGIN - watermark_width - pyTrunc ((range_x : ℚ) * progress),
       Int.fdiv (video_height - watermark_height) 2)
    else if direction = "top_to_bottom" then
      (Int.fdiv (video_width - watermark_width) 2,
       MARGIN + pyTrunc ((range_y : ℚ) * progress))
    else if direction = "bottom_to_top" then
      (Int.fdiv (video_width - watermark_width) 2,
       video_height - MARGIN - watermark_height - pyTrunc ((range_y : ℚ) * progress))
    else if direction = "lt_to_rb" then
      (MARGIN + pyTrunc ((range_x : ℚ) * progress),
       MARGIN + pyTrunc ((range_y : ℚ) * progress))
    else if direction = "rt_to_lb" then
      (video_width - MARGIN - watermark_width - pyTrunc ((range_x : ℚ) * progress),
       MARGIN + pyTrunc ((range_y : ℚ) * progress))
    else if direction = "lb_to_rt" then
      (MARGIN + pyTrunc ((range_x : ℚ) * progress),
       video_height - MARGIN - watermark_height - pyTrunc ((range_y : ℚ) * progress))
    else if direction = "rb_to_lt" then
      (video_width - MARGIN - watermark_width - pyTrunc ((range_x : ℚ) * progress),
       video_height - MARGIN - watermark_height - pyTrunc ((range_y : ℚ) * progress))
    else
      (Int.fdiv (video_width - watermark_width) 2,
       Int.fdiv (video_height - watermark_height) 2)

/-!  C8 — `AudioHandler.remove_silence` (dedup.py 506-540), modelled at the
level of durations in milliseconds.  The call into pydub,
`split_on_silence(audio, min_silence_len, silence_thresh)`, is external; its
result is passed in as the list `chunks` of chunk durations.  pydub returns
non-overlapping sub-segments of the input, so `chunks.sum ≤ inputDur` for
every actual run; theorems that need this take it as a hypothesis.  The loop
appends every chunk and, whenever `silence_retention_ratio > 0`, additionally
`int(silent_duration * silence_retention_ratio)` ms of silence after each
chunk (including the last one). -/

/-- Duration (ms) of the audio produced by `remove_silence`, given the chunk
durations returned by `split_on_silence`.  `retention` models the config
field `silence_retention_ratio` and `silentDur` models `silent_duration`. -/
def remove_silence_duration (enableSilenceCheck : Bool) (retention : ℚ)
    (silentDur : ℕ) (inputDur : ℕ) (chunks : List ℕ) : ℕ :=
  if enableSilenceCheck = false then inputDur
  else if chunks = [] then inputDur
  else
    (chunks.map (fun c =>
      c + if 0 < retention then (pyTrunc ((silentDur : ℚ) * retention)).toNat else 0)).sum

/-!  The per-frame effect chain (`VideoEffects`, dedup.py 770-1640, and
`VideoHandler._process_single_frame`, 1870-1927).  Python exceptions are
modelled by `Except PyErr`; external pixel kernels (OpenCV warps, resizes,
blurs, PIL text rendering, random draws already made) are collected in the
parameter records `Prims` (pure pixel functions) and `Ext` (the runtime
environment: file existence, loaded assets, random draws).  Every float
field of the config is modelled as an exact rational. -/

/-- Python exception kinds relevant to the modelled code paths;
`cv2Error` is the `cv2.error` that OpenCV raises from a failed
`CV_Assert` (such as the `!_src.empty()` check of `GaussianBlur` in
OpenCV 4.2+). -/
inductive PyErr where
  | zeroDivision : PyErr
  | valueError : PyErr
  | cv2Error : PyErr
deriving DecidableEq, Repr

/-- The slice of `VideoConfig` (dedup.py 37-193) consumed by the frame
pipeline.  Integer fields the code compares against 0 keep their signed
type. -/
structure VideoConfig where
  flip_horizontal : Bool
  rotation_angle : ℚ
  crop_percentage : ℚ
  enable_sbc : Bool
  saturation : ℚ
  brightness : ℚ
  contrast : ℚ
  include_watermark : Bool
  watermark_type : String
  watermark_text : String
  watermark_image_path : String
  watermark_direction : String
  include_subtitles : Bool
  subtitles_file : String
  include_titles : Bool
  include_hzh : Bool
  hzh_scale : ℚ
  enable_color_shift : Bool
  blur_background_enabled : Bool
  top_blur_percentage : ℕ
  bottom_blur_percentage : ℕ
  side_blur_percentage : ℕ
  scramble_frequency : ℚ
  enable_texture_noise : Bool
  enable_blur_edge : Bool
  gaussian_blur_interval : ℕ
  gaussian_blur_area_percentage : ℕ
  fade_in_frames : ℤ
  fade_out_frames : ℤ
  enable_hash_disruption : Bool
  enable_vignette : Bool
  enable_dynamic_border : Bool
  border_width : ℤ
  border_style : String
  border_color_start : String
  border_color_end : String
  enable_sticker : Bool
  sticker_change_interval : ℤ
  enable_dct_perturbation : Bool

/-- Abstract pixel kernels for the external library calls.  Each field maps
an input frame (or sub-frame) to a pixel map; the surrounding effect
definitions impose the raster dimensions exactly as the library contract
does. -/
structure Prims where
  warp : ℚ → Frame → ℕ → ℕ → Pixel
  resizePx : ℕ → ℕ → Frame → ℕ → ℕ → Pixel
  sbc : ℚ → ℚ → ℚ → Frame → ℕ → ℕ → Pixel
  textWatermark : ℤ → ℤ → Frame → ℕ → ℕ → Pixel
  imageWM : Frame → ℕ → ℕ → Pixel
  subtitlesPx : Frame → ℕ → ℕ → Pixel
  titlesPx : Frame → ℕ → ℕ → Pixel
  hzhCover : ℕ → Frame → ℕ → ℕ → Pixel
  hzhBlend : ℕ → Frame → ℕ → ℕ → Pixel
  gauss : Frame → ℕ → ℕ → Pixel
  scramblePx : Frame → ℕ → ℕ → Pixel
  texture : Frame → ℕ → ℕ → Pixel
  edge : Frame → ℕ → ℕ → Pixel
  fadeBlend : ℚ → Frame → ℕ → ℕ → Pixel
  hashDisrupt : Frame → ℕ → ℕ → Pixel
  vignettePx : Frame → ℕ → ℕ → Pixel
  gradientColor : ℚ → Pixel → Pixel → Pixel
  hsv2bgr : ℤ → Pixel
  stickerPx : ℕ → Frame → ℕ → ℕ → Pixel
  dct : Frame → ℕ → ℕ → Pixel

/-- The runtime environment of one frame-processing call: asset existence,
preloaded asset data, and the random draws already made inside the effect
bodies. -/
structure Ext where
  randXY : ℤ × ℤ
  textW : ℤ
  textH : ℤ
  wmW : ℤ
  wmH : ℤ
  wmLoaded : Bool
  subsLoaded : Bool
  subtitlesFileExists : Bool
  subActive : Bool
  hzhExists : Bool
  hzhFrameCount : ℕ
  hzhRet : Bool
  colorShiftDraw : ℤ
  stickerFolderExists : Bool
  stickerFiles : List String
  stickerCacheIdx : Option ℕ
  stickerRandIdx : ℕ
  stickerLoadOk : Bool

/-- A trivial instantiation of the abstract pixel kernels, used by concrete
evaluations. -/
def trivPrims : Prims where
  warp := fun _ _ _ _ => (0, 0, 0)
  resizePx := fun _ _ _ _ _ => (0, 0, 0)
  sbc := fun _ _ _ _ _ _ => (0, 0, 0)
  textWatermark := fun _ _ _ _ _ => (0, 0, 0)
  imageWM := fun _ _ _ => (0, 0, 0)
  subtitlesPx := fun _ _ _ => (0, 0, 0)
  titlesPx := fun _ _ _ => (0, 0, 0)
  hzhCover := fun _ _ _ _ => (0, 0, 0)
  hzhBlend := fun _ _ _ _ => (0, 0, 0)
  gauss := fun _ _ _ => (0, 0, 0)
  scramblePx := fun _ _ _ => (0, 0, 0)
  texture := fun _ _ _ => (0, 0, 0)
  edge := fun _ _ _ => (0, 0, 0)
  fadeBlend := fun _ _ _ _ => (0, 0, 0)
  hashDisrupt := fun _ _ _ => (0, 0, 0)
  vignettePx := fun _ _ _ => (0, 0, 0)
  gradientColor := fun _ _ _ => (0, 0, 0)
  hsv2bgr := fun _ => (0, 0, 0)
  stickerPx := fun _ _ _ _ => (0, 0, 0)
  dct := fun _ _ _ => (0, 0, 0)

/-- Clip an integer to `[0, 255]` and cast to a byte
(`np.clip(v, 0, 255).astype(np.uint8)`). -/
def clip255 (z : ℤ) : ℕ := (max 0 (min z 255)).toNat

/-- Start index of the Python slice `a[-b:]` on an axis of length `n`
(for `b ≤ n`): `-0` is `0`, so a zero-length band selects the whole axis. -/
def negSliceStart (b n : ℕ) : ℕ := if b = 0 then 0 else n - b

/-- The sub-frame `frame[a:b, :]`. -/
def rowSlice (f : Frame) (a b : ℕ) : Frame :=
  ⟨b - a, f.w, fun i j => f.px (a + i) j⟩

/-- The sub-frame `frame[:, a:b]`. -/
def colSlice (f : Frame) (a b : ℕ) : Frame :=
  ⟨f.h, b - a, fun i j => f.px i (a + j)⟩

/-- In-place assignment `frame[a:b, :] = g` of a pixel map to a row band. -/
def writeRows (f : Frame) (a b : ℕ) (g : ℕ → ℕ → Pixel) : Frame :=
  ⟨f.h, f.w, fun i j => if a ≤ i ∧ i < b then g (i - a) j else f.px i j⟩

/-- In-place assignment `frame[:, a:b] = g` of a pixel map to a column
band. -/
def writeCols (f : Frame) (a b : ℕ) (g : ℕ → ℕ → Pixel) : Frame :=
  ⟨f.h, f.w, fun i j => if a ≤ j ∧ j < b then g i (j - a) else f.px i j⟩

/-- The channel swap `cv2.cvtColor(frame, COLOR_BGR2RGB)` (or its inverse,
the same permutation). -/
def cvtColorSwap (f : Frame) : Frame :=
  ⟨f.h, f.w, fun i j => ((f.px i j).2.2, (f.px i j).2.1, (f.px i j).1)⟩

/-- Horizontal mirror `cv2.flip(frame, 1)`. -/
def flipH (f : Frame) : Frame :=
  ⟨f.h, f.w, fun i j => f.px i (f.w - 1 - j)⟩

/-- Embedding of `VideoEffects.rotate_frame` (dedup.py 1100-1117):
`warpAffine` with destination size `(w, h)` keeps the raster dimensions. -/
def rotate_frame (P : Prims) (cfg : VideoConfig) (f : Frame) : Frame :=
  if cfg.rotation_angle ≠ 0 then ⟨f.h, f.w, P.warp cfg.rotation_angle f⟩ else f

/-- The crop-then-resize-back step of `_process_single_frame`
(dedup.py 1893-1902): symmetric crop of `int(orig * crop_percentage)`
pixels per side (guarded), then `cv2.resize` to `(orig_width, orig_height)`
whenever the raster differs from the probed size. -/
def cropResize (P : Prims) (cfg : VideoConfig) (origH origW : ℕ) (f : Frame) : Frame :=
  let ch := (pyTrunc ((origH : ℚ) * cfg.crop_percentage)).toNat
  let cw := (pyTrunc ((origW : ℚ) * cfg.crop_percentage)).toNat
  let f1 := if ch + ch < f.h ∧ cw + cw < f.w then
      (⟨f.h - ch - ch, f.w - cw - cw, fun i j => f.px (ch + i) (cw + j)⟩ : Frame)
    else f
  if f1.h ≠ origH ∨ f1.w ≠ origW then ⟨origH, origW, P.resizePx origW origH f1⟩ else f1

/-- Embedding of `VideoEffects.adjust_sbc` (dedup.py 1119-1136). -/
def adjust_sbc (P : Prims) (cfg : VideoConfig) (f : Frame) : Frame :=
  if cfg.enable_sbc then
    ⟨f.h, f.w, P.sbc cfg.contrast cfg.brightness cfg.saturation f⟩
  else f

/-- Embedding of `VideoEffects.add_watermark` (dedup.py 774-840).  The text
branch renders through PIL on a same-size canvas; the image branch
alpha-blends the preloaded watermark into the bounds-checked ROI; the video
branch is unimplemented in the source and falls through. -/
def add_watermark (P : Prims) (E : Ext) (cfg : VideoConfig)
    (frame_idx total_frames : ℤ) (f : Frame) : Frame :=
  if cfg.watermark_type = "text" ∧ cfg.watermark_text ≠ "" then
    let xy := get_watermark_position E.randXY cfg.watermark_direction
      frame_idx total_frames (f.w : ℤ) (f.h : ℤ) E.textW E.textH
    let x := max 0 (min xy.1 ((f.w : ℤ) - E.textW))
    let y := max 0 (min xy.2 ((f.h : ℤ) - E.textH))
    ⟨f.h, f.w, P.textWatermark x y f⟩
  else if cfg.watermark_type = "image" ∧ cfg.watermark_image_path ≠ "" ∧ E.wmLoaded then
    let xy := get_watermark_position E.randXY cfg.watermark_direction
      frame_idx total_frames (f.w : ℤ) (f.h : ℤ) E.wmW E.wmH
    if xy.1 + E.wmW > (f.w : ℤ) ∨ xy.2 + E.wmH > (f.h : ℤ) ∨ xy.1 < 0 ∨ xy.2 < 0 then f
    else
      ⟨f.h, f.w, fun i j =>
        if xy.2 ≤ (i : ℤ) ∧ (i : ℤ) < xy.2 + E.wmH ∧ xy.1 ≤ (j : ℤ) ∧ (j : ℤ) < xy.1 + E.wmW
        then P.imageWM f i j else f.px i j⟩
  else f

/-- Embedding of `VideoEffects.add_subtitles` (dedup.py 934-994): identity
unless a subtitle file is configured and present and some cue covers the
current playback time; otherwise a same-size PIL render. -/
def add_subtitles (P : Prims) (E : Ext) (cfg : VideoConfig) (f : Frame) : Frame :=
  if cfg.subtitles_file = "" ∨ ¬E.subtitlesFileExists ∨ ¬E.subsLoaded then f
  else if E.subActive then ⟨f.h, f.w, P.subtitlesPx f⟩ else f

/-- Embedding of `VideoEffects.add_titles` (dedup.py 996-1071): always
returns a same-size raster converted back from PIL. -/
def add_titles (P : Prims) (f : Frame) : Frame :=
  ⟨f.h, f.w, P.titlesPx f⟩

/-- Embedding of `VideoEffects.add_hzh_effect` (picture-in-picture,
dedup.py 1206-1245).  `hzh_frame_count` comes from the auxiliary capture;
`frame_idx % hzh_frame_count` raises `ZeroDivisionError` when the capture
reports zero frames. -/
def add_hzh_effect (P : Prims) (E : Ext) (cfg : VideoConfig)
    (frame_idx : ℤ) (f : Frame) : Except PyErr Frame :=
  if ¬cfg.include_hzh ∨ ¬E.hzhExists then .ok f
  else if E.hzhFrameCount = 0 then .error .zeroDivision
  else
    let hzhIdx := (frame_idx.emod (E.hzhFrameCount : ℤ)).toNat
    if ¬E.hzhRet then .ok f
    else
      let hzh_h := (pyTrunc ((f.h : ℚ) * cfg.hzh_scale)).toNat
      let hzh_w := (pyTrunc ((f.w : ℚ) * cfg.hzh_scale)).toNat
      let x := Int.fdiv ((f.w : ℤ) - (hzh_w : ℤ)) 2
      let y := Int.fdiv ((f.h : ℤ) - (hzh_h : ℤ)) 2
      if x < 0 ∨ y < 0 ∨ x + (hzh_w : ℤ) > (f.w : ℤ) ∨ y + (hzh_h : ℤ) > (f.h : ℤ) then
        .ok ⟨f.h, f.w, P.hzhCover hzhIdx f⟩
      else
        .ok ⟨f.h, f.w, fun i j =>
          if y ≤ (i : ℤ) ∧ (i : ℤ) < y + (hzh_h : ℤ) ∧ x ≤ (j : ℤ) ∧ (j : ℤ) < x + (hzh_w : ℤ)
          then P.hzhBlend hzhIdx f i j else f.px i j⟩

/-- Embedding of `VideoEffects.color_shift` (dedup.py 1184-1204): the first
channel is shifted by the random draw, the second by its negation, the
third kept, each clipped back to a byte. -/
def color_shift (E : Ext) (cfg : VideoConfig) (f : Frame) : Frame :=
  if cfg.enable_color_shift then
    ⟨f.h, f.w, fun i j =>
      (clip255 (((f.px i j).1 : ℤ) + E.colorShiftDraw),
       clip255 (((f.px i j).2.1 : ℤ) - E.colorShiftDraw),
       (f.px i j).2.2)⟩
  else f

/-- The call `cv2.GaussianBlur(band, (k, k), 0)` on a band sub-frame.
OpenCV 4.2+ begins `GaussianBlur` with `CV_Assert(!_src.empty())`, so a
band with either dimension 0 raises `cv2.error`; otherwise the blurred
pixel map of the band is produced. -/
def gaussBlurBand (P : Prims) (f : Frame) : Except PyErr (ℕ → ℕ → Pixel) :=
  if f.h = 0 ∨ f.w = 0 then .error .cv2Error else .ok (P.gauss f)

/-- Embedding of `VideoEffects.blur_background` (dedup.py 1138-1160):
four sequential in-place Gaussian-blur assignments on the top, bottom,
left and right bands, in source order (top 1156, bottom 1157, left 1158,
right 1159); the bottom and right bands use negative-index slices, and an
empty band raises `cv2.error` at its `GaussianBlur` call before the later
lines run. -/
def blur_background (P : Prims) (cfg : VideoConfig) (f : Frame) :
    Except PyErr Frame :=
  if ¬cfg.blur_background_enabled then .ok f
  else
    let top := f.h * cfg.top_blur_percentage / 100
    let bottom := f.h * cfg.bottom_blur_percentage / 100
    let side := f.w * cfg.side_blur_percentage / 100
    do
      let g1 ← gaussBlurBand P (rowSlice f 0 top)
      let f1 := writeRows f 0 top g1
      let g2 ← gaussBlurBand P (rowSlice f1 (negSliceStart bottom f1.h) f1.h)
      let f2 := writeRows f1 (negSliceStart bottom f1.h) f1.h g2
      let g3 ← gaussBlurBand P (colSlice f2 0 side)
      let f3 := writeCols f2 0 side g3
      let g4 ← gaussBlurBand P (colSlice f3 (negSliceStart side f3.w) f3.w)
      return writeCols f3 (negSliceStart side f3.w) f3.w g4

/-- Embedding of `VideoEffects.scramble_phase` at the frame level
(dedup.py 1247-1281): disabled exactly when the float
`scramble_frequency` is falsy, i.e. zero.  The per-channel spectral
arithmetic is modelled exactly in `scramble_channel` below. -/
def scramble_phase (P : Prims) (cfg : VideoConfig) (f : Frame) : Frame :=
  if cfg.scramble_frequency = 0 then f else ⟨f.h, f.w, P.scramblePx f⟩

/-- Embedding of `VideoEffects.add_texture_noise` (dedup.py 1283-1306). -/
def add_texture_noise (P : Prims) (cfg : VideoConfig) (f : Frame) : Frame :=
  if ¬cfg.enable_texture_noise then f else ⟨f.h, f.w, P.texture f⟩

/-- Embedding of `VideoEffects.apply_edge_blur` (dedup.py 1308-1324). -/
def apply_edge_blur (P : Prims) (cfg : VideoConfig) (f : Frame) : Frame :=
  if ¬cfg.enable_blur_edge then f else ⟨f.h, f.w, P.edge f⟩

/-- Embedding of `VideoEffects.apply_gaussian_blur` (dedup.py 1073-1098):
periodic partial blur of the four `int(dim * pct/100)`-sized bands; as in
`blur_background`, `cv2.GaussianBlur` on an empty band raises
`cv2.error`. -/
def apply_gaussian_blur (P : Prims) (cfg : VideoConfig) (frame_idx : ℤ)
    (f : Frame) : Except PyErr Frame :=
  if cfg.gaussian_blur_interval = 0 ∨ frame_idx.emod (cfg.gaussian_blur_interval : ℤ) ≠ 0
  then .ok f
  else
    let bh := f.h * cfg.gaussian_blur_area_percentage / 100
    let bw := f.w * cfg.gaussian_blur_area_percentage / 100
    do
      let g1 ← gaussBlurBand P (rowSlice f 0 bh)
      let f1 := writeRows f 0 bh g1
      let g2 ← gaussBlurBand P (rowSlice f1 (f1.h - bh) f1.h)
      let f2 := writeRows f1 (f1.h - bh) f1.h g2
      let g3 ← gaussBlurBand P (colSlice f2 0 bw)
      let f3 := writeCols f2 0 bw g3
      let g4 ← gaussBlurBand P (colSlice f3 (f3.w - bw) f3.w)
      return writeCols f3 (f3.w - bw) f3.w g4

/-- Embedding of `VideoEffects.apply_fade_effect` (dedup.py 1162-1182);
`alpha = frame_idx / fade_in_frames` (resp. the fade-out ratio) raises
`ZeroDivisionError` when the divisor is zero and the branch is taken. -/
def apply_fade_effect (P : Prims) (cfg : VideoConfig)
    (frame_idx total_frames : ℤ) (f : Frame) : Except PyErr Frame :=
  if frame_idx < cfg.fade_in_frames then
    if cfg.fade_in_frames = 0 then .error .zeroDivision
    else .ok ⟨f.h, f.w, P.fadeBlend ((frame_idx : ℚ) / (cfg.fade_in_frames : ℚ)) f⟩
  else if total_frames - cfg.fade_out_frames ≤ frame_idx then
    if cfg.fade_out_frames = 0 then .error .zeroDivision
    else .ok ⟨f.h, f.w, P.fadeBlend (((total_frames - frame_idx : ℤ) : ℚ) / (cfg.fade_out_frames : ℚ)) f⟩
  else .ok f

/-- Embedding of `VideoEffects.apply_hash_disruption` (dedup.py 1328-1403):
random border pixels and corner blocks, raster size unchanged. -/
def apply_hash_disruption (P : Prims) (cfg : VideoConfig) (f : Frame) : Frame :=
  if ¬cfg.enable_hash_disruption then f else ⟨f.h, f.w, P.hashDisrupt f⟩

/-- Embedding of `VideoEffects.apply_vignette` at the frame level
(dedup.py 1405-1441).  The mask arithmetic is modelled exactly in
`vignette_mask` below. -/
def apply_vignette (P : Prims) (cfg : VideoConfig) (f : Frame) : Frame :=
  if ¬cfg.enable_vignette then f else ⟨f.h, f.w, P.vignettePx f⟩

/-- One hexadecimal digit of Python `int(s, 16)`. -/
def hexDigitVal (c : Char) : Option ℕ :=
  if 48 ≤ c.toNat ∧ c.toNat ≤ 57 then some (c.toNat - 48)
  else if 97 ≤ c.toNat ∧ c.toNat ≤ 102 then some (c.toNat - 87)
  else if 65 ≤ c.toNat ∧ c.toNat ≤ 70 then some (c.toNat - 55)
  else none

/-- Python `int(s, 16)` on a character list: `ValueError` on an empty or
non-hexadecimal string. -/
def pyIntHex (cs : List Char) : Except PyErr ℕ :=
  if cs = [] then .error .valueError
  else cs.foldlM (fun acc c =>
    match hexDigitVal c with
    | some v => .ok (acc * 16 + v)
    | none => .error .valueError) 0

/-- The local `hex_to_bgr` of `apply_dynamic_border` (dedup.py 1464-1467):
strip leading hash marks, parse three two-character hex groups, return
them in BGR order. -/
def hex_to_bgr (s : String) : Except PyErr Pixel := do
  let cs := s.data.dropWhile (fun c => c = '#')
  let r ← pyIntHex (cs.take 2)
  let g ← pyIntHex ((cs.drop 2).take 2)
  let b ← pyIntHex ((cs.drop 4).take 2)
  return (b, g, r)

/-- Paint the four `border_width` bands of a frame with one color
(the assignments `frame[:bw, :] = c` etc., dedup.py 1473-1502). -/
def paintBorder (f : Frame) (bw : ℕ) (c : Pixel) : Frame :=
  ⟨f.h, f.w, fun i j =>
    if i < bw ∨ negSliceStart bw f.h ≤ i ∨ j < bw ∨ negSliceStart bw f.w ≤ j
    then c else f.px i j⟩

/-- Embedding of `VideoEffects.apply_dynamic_border` (dedup.py 1443-1504).
Color strings are parsed per frame by `hex_to_bgr`; an unparsable string
raises `ValueError`.  The gradient interpolation (driven by `sin`) and the
HSV conversion are abstracted into `Prims`; the rainbow hue is the exact
`int((progress * 180) % 180)`. -/
def apply_dynamic_border (P : Prims) (cfg : VideoConfig)
    (frame_idx total_frames : ℤ) (f : Frame) : Except PyErr Frame :=
  if ¬cfg.enable_dynamic_border ∨ cfg.border_width ≤ 0 then .ok f
  else
    let bw := cfg.border_width.toNat
    let progress : ℚ := (frame_idx : ℚ) / ((max total_frames 1 : ℤ) : ℚ)
    if cfg.border_style = "solid" then do
      let c ← hex_to_bgr cfg.border_color_start
      return paintBorder f bw c
    else if cfg.border_style = "gradient" then do
      let cs ← hex_to_bgr cfg.border_color_start
      let ce ← hex_to_bgr cfg.border_color_end
      return paintBorder f bw (P.gradientColor progress cs ce)
    else if cfg.border_style = "rainbow" then
      return paintBorder f bw (P.hsv2bgr ((⌊progress * 180⌋ : ℤ).emod 180))
    else return f

/-- The body of the `try` block of `apply_sticker` (dedup.py 1546-1589):
load, resize, position and paste the chosen sticker.  A failure anywhere in
the block (missing/corrupt file, empty randint range, ...) is modelled by
`E.stickerLoadOk = false`. -/
def stickerTryBody (P : Prims) (E : Ext) (sticker_idx : ℕ) (f : Frame) :
    Except PyErr Frame :=
  if E.stickerLoadOk then .ok ⟨f.h, f.w, P.stickerPx sticker_idx f⟩
  else .error .valueError

/-- Embedding of `VideoEffects.apply_sticker` (dedup.py 1506-1593): guards
for the toggle, the folder and the file list; sticker choice by interval or
by the run-wide cached random pick; the `try/except` catches every load
failure and passes the frame through. -/
def apply_sticker (P : Prims) (E : Ext) (cfg : VideoConfig)
    (frame_idx : ℤ) (f : Frame) : Except PyErr Frame :=
  if ¬cfg.enable_sticker then .ok f
  else if ¬E.stickerFolderExists then .ok f
  else if E.stickerFiles = [] then .ok f
  else
    let n := E.stickerFiles.length
    let sticker_idx :=
      if 0 < cfg.sticker_change_interval then
        (((frame_idx / cfg.sticker_change_interval)).emod (n : ℤ)).toNat
      else match E.stickerCacheIdx with
        | some i => i
        | none => E.stickerRandIdx
    match stickerTryBody P E sticker_idx f with
    | .ok f2 => .ok f2
    | .error _ => .ok f

/-- Embedding of `VideoEffects.apply_dct_perturbation` (dedup.py 1595-1640). -/
def apply_dct_perturbation (P : Prims) (cfg : VideoConfig) (f : Frame) : Frame :=
  if ¬cfg.enable_dct_perturbation then f else ⟨f.h, f.w, P.dct f⟩

/-- The pure prefix of `_process_single_frame` (dedup.py 1887-1910):
color conversion, flip, rotation, crop/resize-back, color adjustment,
watermark, subtitles, titles. -/
def preEffects (P : Prims) (E : Ext) (cfg : VideoConfig)
    (frame_idx total_frames : ℤ) (origH origW : ℕ) (f0 : Frame) : Frame :=
  let f := cvtColorSwap f0
  let f := if cfg.flip_horizontal then flipH f else f
  let f := rotate_frame P cfg f
  let f := cropResize P cfg origH origW f
  let f := adjust_sbc P cfg f
  let f := if cfg.include_watermark then add_watermark P E cfg frame_idx total_frames f else f
  let f := if cfg.include_subtitles ∧ E.subsLoaded then add_subtitles P E cfg f else f
  if cfg.include_titles then add_titles P f else f

/-- The middle section of `_process_single_frame` (dedup.py 1912-1917):
color shift, background blur, phase scramble, texture noise, edge blur,
periodic Gaussian blur; the two band-blur effects can raise. -/
def midEffects (P : Prims) (E : Ext) (cfg : VideoConfig)
    (frame_idx : ℤ) (f0 : Frame) : Except PyErr Frame := do
  let f := color_shift E cfg f0
  let f ← blur_background P cfg f
  let f := scramble_phase P cfg f
  let f := add_texture_noise P cfg f
  let f := apply_edge_blur P cfg f
  apply_gaussian_blur P cfg frame_idx f

/-- The pure pair after the fade step (dedup.py 1921-1922): hash
disruption and vignette. -/
def postFadeEffects (P : Prims) (cfg : VideoConfig) (f0 : Frame) : Frame :=
  apply_vignette P cfg (apply_hash_disruption P cfg f0)

/-- Embedding of `VideoHandler._process_single_frame` (dedup.py 1870-1927):
the full per-frame effect chain, in source order, with exceptions
propagating (there is no `try/except` in this function). -/
def processSingleFrame (P : Prims) (E : Ext) (cfg : VideoConfig)
    (total_frames : ℤ) (origH origW : ℕ) (frame_idx : ℤ) (f0 : Frame) :
    Except PyErr (ℤ × Frame) := do
  let f := preEffects P E cfg frame_idx total_frames origH origW f0
  let f ← add_hzh_effect P E cfg frame_idx f
  let f ← midEffects P E cfg frame_idx f
  let f ← apply_fade_effect P cfg frame_idx total_frames f
  let f := postFadeEffects P cfg f
  let f ← apply_dynamic_border P cfg frame_idx total_frames f
  let f ← apply_sticker P E cfg frame_idx f
  let f := apply_dct_perturbation P cfg f
  return (frame_idx, cvtColorSwap f)

/-!  The batching machinery (`_process_frames` / `_process_batch`,
dedup.py 1822-1868).  `[f.result() for f in futures]` gathers results in
submission order and re-raises the first worker exception encountered;
`sorted(..., key=lambda x: x[0])` is a stable sort on the frame index. -/

/-- Stable insertion of a pair into a list sorted by frame index. -/
def insertByIdx (p : ℤ × Frame) : List (ℤ × Frame) → List (ℤ × Frame)
  | [] => [p]
  | q :: rest => if p.1 ≤ q.1 then p :: q :: rest else q :: insertByIdx p rest

/-- The Python `sorted(results, key=lambda x: x[0])`: a stable sort by the
frame index. -/
def sortByIdx : List (ℤ × Frame) → List (ℤ × Frame)
  | [] => []
  | p :: rest => insertByIdx p (sortByIdx rest)

/-- Gathering `[f.result() for f in futures]`: results in submission order,
with the first raised worker exception propagating. -/
def gatherResults (worker : ℤ → Frame → Except PyErr (ℤ × Frame)) :
    List (ℤ × Frame) → Except PyErr (List (ℤ × Frame))
  | [] => .ok []
  | p :: rest => do
    let r ← worker p.1 p.2
    let rs ← gatherResults worker rest
    return r :: rs

/-- Embedding of `VideoHandler._process_batch` (dedup.py 1850-1868). -/
def processBatch (worker : ℤ → Frame → Except PyErr (ℤ × Frame))
    (batch : List (ℤ × Frame)) : Except PyErr (List (ℤ × Frame)) := do
  let results ← gatherResults worker batch
  return sortByIdx results

/-- The accumulation loop of `_process_frames` (dedup.py 1837-1848):
consume the frame generator, submit a batch whenever `batch_size` frames
have accumulated, yield the processed batch in order, and flush the partial
final batch. -/
def processFramesAux (worker : ℤ → Frame → Except PyErr (ℤ × Frame)) (bs : ℕ)
    (batch : List (ℤ × Frame)) :
    List (ℤ × Frame) → Except PyErr (List (ℤ × Frame))
  | [] => if batch.isEmpty then .ok [] else processBatch worker batch
  | p :: rest =>
    let b := batch ++ [p]
    if bs ≤ b.length then do
      let done ← processBatch worker b
      let more ← processFramesAux worker bs [] rest
      return done ++ more
    else processFramesAux worker bs b rest

/-- Embedding of `VideoHandler._process_frames` (dedup.py 1822-1848); the
pairs keep the frame index the generator attached to each frame. -/
def processFrames (worker : ℤ → Frame → Except PyErr (ℤ × Frame)) (bs : ℕ)
    (input : List (ℤ × Frame)) : Except PyErr (List (ℤ × Frame)) :=
  processFramesAux worker bs [] input

/-- The processed frame of a successful worker result (used to state what
the ordered output stream contains). -/
def okFrame (r : Except PyErr (ℤ × Frame)) : Frame :=
  match r with
  | .ok q => q.2
  | .error _ => default

/-- The raster dimensions (height, width) of a frame. -/
def dimsOf (f : Frame) : ℕ × ℕ := (f.h, f.w)

/-- A trivial runtime environment (no assets, fixed draws), used by
concrete evaluations. -/
def trivExt : Ext where
  randXY := (0, 0)
  textW := 0
  textH := 0
  wmW := 0
  wmH := 0
  wmLoaded := false
  subsLoaded := false
  subtitlesFileExists := false
  subActive := false
  hzhExists := false
  hzhFrameCount := 0
  hzhRet := false
  colorShiftDraw := 0
  stickerFolderExists := false
  stickerFiles := []
  stickerCacheIdx := none
  stickerRandIdx := 0
  stickerLoadOk := false

/-- A configuration with every effect disabled, used by concrete
evaluations. -/
def cfgAllOff : VideoConfig where
  flip_horizontal := false
  rotation_angle := 0
  crop_percentage := 0
  enable_sbc := false
  saturation := 1
  brightness := 0
  contrast := 1
  include_watermark := false
  watermark_type := "text"
  watermark_text := ""
  watermark_image_path := ""
  watermark_direction := "center"
  include_subtitles := false
  subtitles_file := ""
  include_titles := false
  include_hzh := false
  hzh_scale := 1
  enable_color_shift := false
  blur_background_enabled := false
  top_blur_percentage := 0
  bottom_blur_percentage := 0
  side_blur_percentage := 0
  scramble_frequency := 0
  enable_texture_noise := false
  enable_blur_edge := false
  gaussian_blur_interval := 0
  gaussian_blur_area_percentage := 0
  fade_in_frames := 0
  fade_out_frames := 0
  enable_hash_disruption := false
  enable_vignette := false
  enable_dynamic_border := false
  border_width := 0
  border_style := "solid"
  border_color_start := ""
  border_color_end := ""
  enable_sticker := false
  sticker_change_interval := 0
  enable_dct_perturbation := false

/-- A small concrete frame for evaluations. -/
def testFrame : Frame := ⟨2, 2, fun _ _ => (1, 2, 3)⟩

/-- The all-off configuration with only background blur enabled (its three
blur percentages stay 0). -/
def cfgBlurOn : VideoConfig := { cfgAllOff with blur_background_enabled := true }

/-- Background blur enabled with a positive top band, a zero bottom band
and a positive side band — the configuration whose bottom `frame[-0:, :]`
slice is actually reached. -/
def cfgBlurMix : VideoConfig :=
  { cfgAllOff with
    blur_background_enabled := true
    top_blur_percentage := 50
    bottom_blur_percentage := 0
    side_blur_percentage := 25 }

/-- A concrete 2×4 frame, so the side bands of `cfgBlurMix` are one column
wide and two interior columns remain. -/
def wideFrame : Frame := ⟨2, 4, fun _ _ => (1, 2, 3)⟩

/-- Trivial kernels whose Gaussian blur is a constant nonzero pixel, used
to exhibit that enabled background blur is not the identity. -/
def constGaussPrims : Prims := { trivPrims with gauss := fun _ _ _ => (9, 9, 9) }

/-- The all-off configuration with the dynamic border enabled and a border
color string that is not six hex digits.  `config.validate` never checks
`border_color_start`, so this configuration passes validation and reaches
the frame workers. -/
def cfgBorderBad : VideoConfig :=
  { cfgAllOff with
    enable_dynamic_border := true
    border_width := 3
    border_style := "solid"
    border_color_start := "red" }

/-!  C3 — the exact per-channel spectral arithmetic of
`VideoEffects.scramble_phase` (dedup.py 1247-1281): `np.fft.fft2`,
`np.fft.fftshift`, magnitude/phase split, phase perturbation,
reconstruction, `np.fft.ifftshift`, `np.fft.ifft2`, `np.abs`, byte cast.
A channel is a matrix of byte values; the uniform noise draw is passed in
as a matrix. -/

/-- The 2-dimensional discrete Fourier transform `np.fft.fft2`. -/
noncomputable def fft2 {m n : ℕ} (x : Matrix (Fin m) (Fin n) ℂ) :
    Matrix (Fin m) (Fin n) ℂ :=
  fun k l => ∑ a : Fin m, ∑ b : Fin n,
    x a b * Complex.exp
      ((-(2 * Real.pi * ((k.val * a.val : ℝ) / m + (l.val * b.val : ℝ) / n)) : ℝ) * Complex.I)

/-- The 2-dimensional inverse transform `np.fft.ifft2`. -/
noncomputable def ifft2 {m n : ℕ} (x : Matrix (Fin m) (Fin n) ℂ) :
    Matrix (Fin m) (Fin n) ℂ :=
  fun a b => (1 / ((m : ℂ) * (n : ℂ))) * ∑ k : Fin m, ∑ l : Fin n,
    x k l * Complex.exp
      ((2 * Real.pi * ((k.val * a.val : ℝ) / m + (l.val * b.val : ℝ) / n) : ℝ) * Complex.I)

/-- Cyclic index shift by `c` along one axis. -/
def shiftIdx {m : ℕ} (c : ℕ) (k : Fin m) : Fin m :=
  ⟨(k.val + c) % m, Nat.mod_lt _ k.pos⟩

/-- The spectrum recentering `np.fft.fftshift` (roll by `⌈dim/2⌉` on each
axis). -/
def fftshift {m n : ℕ} (x : Matrix (Fin m) (Fin n) ℂ) :
    Matrix (Fin m) (Fin n) ℂ :=
  fun k l => x (shiftIdx ((m + 1) / 2) k) (shiftIdx ((n + 1) / 2) l)

/-- The inverse recentering `np.fft.ifftshift` (roll by `⌊dim/2⌋`). -/
def ifftshift {m n : ℕ} (x : Matrix (Fin m) (Fin n) ℂ) :
    Matrix (Fin m) (Fin n) ℂ :=
  fun k l => x (shiftIdx (m / 2) k) (shiftIdx (n / 2) l)

/-- The recentered spectrum of one channel
(`fshift = np.fft.fftshift(np.fft.fft2(channel))`). -/
noncomputable def channelSpectrum {m n : ℕ} (ch : Matrix (Fin m) (Fin n) ℕ) :
    Matrix (Fin m) (Fin n) ℂ :=
  fftshift (fft2 (fun a b => ((ch a b : ℝ) : ℂ)))

/-- The reconstructed spectrum `fshift_new = magnitude * exp(1j * phase)`
after the phase of each coefficient has been perturbed by the noise draw
(dedup.py 1270-1275). -/
noncomputable def scramble_recon {m n : ℕ} (noise : Matrix (Fin m) (Fin n) ℝ)
    (ch : Matrix (Fin m) (Fin n) ℕ) : Matrix (Fin m) (Fin n) ℂ :=
  fun k l =>
    ((Complex.abs (channelSpectrum ch k l) : ℝ) : ℂ) *
      Complex.exp ((((channelSpectrum ch k l).arg + noise k l : ℝ)) * Complex.I)

/-- One full channel pass of `scramble_phase`: reconstruct, un-shift,
inverse transform, take `np.abs` and cast to `uint8`
(dedup.py 1276-1279). -/
noncomputable def scramble_channel {m n : ℕ} (noise : Matrix (Fin m) (Fin n) ℝ)
    (ch : Matrix (Fin m) (Fin n) ℕ) : Matrix (Fin m) (Fin n) ℕ :=
  fun a b => uint8OfReal (Complex.abs (ifft2 (ifftshift (scramble_recon noise ch)) a b))

/-- A concrete 1×2 channel (pixel values 2 and 0), used to settle the
magnitude-preservation claim. -/
def chEx : Matrix (Fin 1) (Fin 2) ℕ := fun _ b => if b = 0 then 2 else 0

/-- A concrete noise draw within the uniform bounds of
`scramble_frequency = 1`: 1/2 radians on the first coefficient, 0 on the
second. -/
noncomputable def noiseEx : Matrix (Fin 1) (Fin 2) ℝ :=
  fun _ b => if b = 0 then 1 / 2 else 0

/-!  C9 — the exact mask arithmetic of `VideoEffects.apply_vignette`
(dedup.py 1405-1441). -/

/-- Clip a real to `[0, 1]` (`np.clip(v, 0, 1)`). -/
noncomputable def clip01 (r : ℝ) : ℝ := min 1 (max 0 r)

/-- The vignette attenuation mask of `apply_vignette`, as a function of the
(real) raster position `(x, y)` for an `h × w` frame:
`clip(1 - strength * (dist/maxDist/radius)^2, 0, 1)` where `dist` is the
distance of `(x, y)` from the frame center `(w/2, h/2)`. -/
noncomputable def vignette_mask (h w : ℕ) (strength radius : ℝ) (x y : ℝ) : ℝ :=
  let cx : ℝ := (w : ℝ) / 2
  let cy : ℝ := (h : ℝ) / 2
  let dist := Real.sqrt ((x - cx) ^ 2 + (y - cy) ^ 2)
  let maxd := Real.sqrt (cx ^ 2 + cy ^ 2)
  clip01 (1 - strength * (dist / maxd / radius) ^ 2)

/-- One channel value of one pixel through `apply_vignette`: identity when
the effect is disabled, otherwise the byte cast of the float product with
the mask (row `i`, column `j`, so `x = j`, `y = i`). -/
noncomputable def apply_vignette_px (enable : Bool) (h w : ℕ)
    (strength radius : ℝ) (i j : ℕ) (px : ℕ) : ℕ :=
  if ¬enable then px
  else uint8OfReal ((px : ℝ) * vignette_mask h w strength radius (j : ℝ) (i : ℝ))

/-! ## Theorems

Helper lemmas about the `Except` monad, the stable sort of
`_process_batch`, and the worker function; then one theorem (plus
counterexamples/witnesses) per claim. -/

theorem except_bind_ok {α β : Type} {x : Except PyErr α}
    {g : α → Except PyErr β} {b : β} :
    x >>= g = .ok b ↔ ∃ a, x = .ok a ∧ g a = .ok b := by
  cases x <;> simp [Bind.bind, Except.bind]

theorem except_ok_bind {α β : Type} (a : α) (g : α → Except PyErr β) :
    (Except.ok a : Except PyErr α) >>= g = g a := rfl

theorem mem_insertByIdx {p a : ℤ × Frame} {l : List (ℤ × Frame)} :
    a ∈ insertByIdx p l ↔ a = p ∨ a ∈ l := by
  induction l with
  | nil => simp [insertByIdx]
  | cons q rest ih =>
    simp only [insertByIdx]
    split
    · simp [List.mem_cons]
    · simp [List.mem_cons, ih]
      tauto

theorem insertByIdx_pairwise {p : ℤ × Frame} {l : List (ℤ × Frame)}
    (h : l.Pairwise (fun x y => x.1 ≤ y.1)) :
    (insertByIdx p l).Pairwise (fun x y => x.1 ≤ y.1) := by
  induction l with
  | nil => simp [insertByIdx]
  | cons q rest ih =>
    rw [List.pairwise_cons] at h
    simp only [insertByIdx]
    split
    · rename_i hpq
      refine List.Pairwise.cons ?_ (List.Pairwise.cons h.1 h.2)
      intro x hx
      rcases List.mem_cons.mp hx with rfl | hx
      · exact hpq
      · exact le_trans hpq (h.1 x hx)
    · rename_i hpq
      refine List.Pairwise.cons ?_ (ih h.2)
      intro x hx
      rcases mem_insertByIdx.mp hx with rfl | hx
      · exact le_of_lt (lt_of_not_le hpq)
      · exact h.1 x hx

theorem sortByIdx_pairwise (l : List (ℤ × Frame)) :
    (sortByIdx l).Pairwise (fun x y => x.1 ≤ y.1) := by
  induction l with
  | nil => simp [sortByIdx]
  | cons p rest ih => exact insertByIdx_pairwise ih

theorem insertByIdx_of_le {p : ℤ × Frame} {l : List (ℤ × Frame)}
    (h : ∀ q ∈ l, p.1 ≤ q.1) : insertByIdx p l = p :: l := by
  cases l with
  | nil => rfl
  | cons q rest =>
    simp only [insertByIdx]
    rw [if_pos (h q (List.mem_cons_self q rest))]

theorem sortByIdx_eq_self {l : List (ℤ × Frame)}
    (h : l.Pairwise (fun x y => x.1 ≤ y.1)) : sortByIdx l = l := by
  induction l with
  | nil => rfl
  | cons p rest ih =>
    rw [List.pairwise_cons] at h
    simp only [sortByIdx]
    rw [ih h.2, insertByIdx_of_le h.1]

theorem gatherResults_ok (worker : ℤ → Frame → Except PyErr (ℤ × Frame))
    (F : ℤ → Frame → Frame) (l : List (ℤ × Frame))
    (h : ∀ p ∈ l, worker p.1 p.2 = .ok (p.1, F p.1 p.2)) :
    gatherResults worker l = .ok (l.map fun p => (p.1, F p.1 p.2)) := by
  induction l with
  | nil => rfl
  | cons p rest ih =>
    have hp := h p (List.mem_cons_self p rest)
    have hr := ih (fun q hq => h q (List.mem_cons_of_mem _ hq))
    simp [gatherResults, hp, hr, Bind.bind, Except.bind, Pure.pure, Except.pure]

theorem processBatch_eq (worker : ℤ → Frame → Except PyErr (ℤ × Frame))
    (F : ℤ → Frame → Frame) (batch : List (ℤ × Frame))
    (hw : ∀ p ∈ batch, worker p.1 p.2 = .ok (p.1, F p.1 p.2))
    (hs : batch.Pairwise (fun p q => p.1 ≤ q.1)) :
    processBatch worker batch = .ok (batch.map fun p => (p.1, F p.1 p.2)) := by
  have hmap : (batch.map fun p => (p.1, F p.1 p.2)).Pairwise
      (fun x y : ℤ × Frame => x.1 ≤ y.1) := by
    rw [List.pairwise_map]
    exact hs
  simp [processBatch, gatherResults_ok worker F batch hw, Bind.bind, Except.bind,
    Pure.pure, Except.pure, sortByIdx_eq_self hmap]

theorem processBatch_sorted (worker : ℤ → Frame → Except PyErr (ℤ × Frame))
    (batch out : List (ℤ × Frame))
    (h : processBatch worker batch = .ok out) :
    out.Pairwise (fun p q => p.1 ≤ q.1) := by
  unfold processBatch at h
  obtain ⟨res, _, hout⟩ := except_bind_ok.mp h
  have : sortByIdx res = out := by
    simpa [Pure.pure, Except.pure] using hout
  rw [← this]
  exact sortByIdx_pairwise res

theorem processFramesAux_eq (worker : ℤ → Frame → Except PyErr (ℤ × Frame))
    (F : ℤ → Frame → Frame) (bs : ℕ) (rest : List (ℤ × Frame)) :
    ∀ batch : List (ℤ × Frame),
    (batch ++ rest).Pairwise (fun p q => p.1 < q.1) →
    (∀ p ∈ batch ++ rest, worker p.1 p.2 = .ok (p.1, F p.1 p.2)) →
    processFramesAux worker bs batch rest =
      .ok ((batch ++ rest).map fun p => (p.1, F p.1 p.2)) := by
  induction rest with
  | nil =>
    intro batch hs hw
    rw [List.append_nil] at hs hw ⊢
    cases batch with
    | nil => rfl
    | cons p bt =>
      simp only [processFramesAux, List.isEmpty_cons]
      exact processBatch_eq worker F _ hw (hs.imp (fun h => le_of_lt h))
  | cons p rest ih =>
    intro batch hs hw
    have hre : batch ++ p :: rest = (batch ++ [p]) ++ rest := by
      rw [List.append_cons]
    rw [hre] at hs hw
    simp only [processFramesAux]
    split
    · rw [List.pairwise_append] at hs
      have hbatch := processBatch_eq worker F (batch ++ [p])
        (fun q hq => hw q (List.mem_append_left _ hq))
        (hs.1.imp (fun h => le_of_lt h))
      have hrest := ih [] (by simpa using hs.2.1)
        (fun q hq => hw q (List.mem_append_right _ (by simpa using hq)))
      simp only [List.nil_append] at hrest
      rw [hre, List.map_append]
      simp [hbatch, hrest, Bind.bind, Except.bind, Pure.pure, Except.pure]
    · rw [hre]
      exact ih (batch ++ [p]) hs hw

theorem processSingleFrame_fst {P : Prims} {E : Ext} {cfg : VideoConfig}
    {total : ℤ} {oh ow : ℕ} {i : ℤ} {f : Frame} {r : ℤ × Frame}
    (h : processSingleFrame P E cfg total oh ow i f = .ok r) : r.1 = i := by
  unfold processSingleFrame at h
  simp only [except_bind_ok, Pure.pure, Except.pure] at h
  obtain ⟨a1, -, a2, -, a3, -, a4, -, a5, -, hr⟩ := h
  cases hr
  rfl

theorem processSingleFrame_ok_shape {P : Prims} {E : Ext} {cfg : VideoConfig}
    {total : ℤ} {oh ow : ℕ} {i : ℤ} {f : Frame}
    (h : ∃ r, processSingleFrame P E cfg total oh ow i f = .ok r) :
    processSingleFrame P E cfg total oh ow i f =
      .ok (i, okFrame (processSingleFrame P E cfg total oh ow i f)) := by
  obtain ⟨r, hr⟩ := h
  have hi := processSingleFrame_fst hr
  rw [hr, okFrame, ← hi]

/-- C1: for every batch, `_process_batch` returns its results sorted by
frame index, and `_process_frames` consumes batches strictly in submission
order, so on an input stream of strictly increasing frame indices the
yielded stream of `(index, frame)` pairs equals the input order exactly
(no frame emitted out of order), each frame transformed by
`_process_single_frame`. -/
theorem C1_order_preservation (P : Prims) (E : Ext) (cfg : VideoConfig)
    (total : ℤ) (oh ow : ℕ) (bs : ℕ) (input : List (ℤ × Frame))
    (hsorted : input.Pairwise (fun p q => p.1 < q.1))
    (hok : ∀ p ∈ input, ∃ r,
      processSingleFrame P E cfg total oh ow p.1 p.2 = .ok r) :
    (∀ batch out,
        processBatch (processSingleFrame P E cfg total oh ow) batch = .ok out →
        out.Pairwise (fun p q => p.1 ≤ q.1)) ∧
    processFrames (processSingleFrame P E cfg total oh ow) bs input =
      .ok (input.map fun p =>
        (p.1, okFrame (processSingleFrame P E cfg total oh ow p.1 p.2))) := by
  constructor
  · intro batch out h
    exact processBatch_sorted _ batch out h
  · exact processFramesAux_eq _
      (fun i fr => okFrame (processSingleFrame P E cfg total oh ow i fr)) bs input []
      (by simpa using hsorted)
      (by
        intro p hp
        simp only [List.nil_append] at hp
        exact processSingleFrame_ok_shape (hok p hp))

/-- C1 witness: the order-preservation theorem applied to a concrete
three-frame input with batch size 2 and the all-off configuration. -/
theorem C1_order_preservation_witness :
    processFrames (processSingleFrame trivPrims trivExt cfgAllOff 3 2 2) 2
        [(0, testFrame), (1, testFrame), (2, testFrame)] =
      .ok ([(0, testFrame), (1, testFrame), (2, testFrame)].map fun p =>
        (p.1, okFrame (processSingleFrame trivPrims trivExt cfgAllOff 3 2 2 p.1 p.2))) := by
  refine (C1_order_preservation trivPrims trivExt cfgAllOff 3 2 2 2
    [(0, testFrame), (1, testFrame), (2, testFrame)] ?_ ?_).2
  · norm_num [List.pairwise_cons]
  · intro p hp
    rcases List.mem_cons.mp hp with rfl | hp
    · exact ⟨_, rfl⟩
    rcases List.mem_cons.mp hp with rfl | hp
    · exact ⟨_, rfl⟩
    rcases List.mem_cons.mp hp with rfl | hp
    · exact ⟨_, rfl⟩
    · cases hp

/-!  C4 — the frame-swap remap. -/

theorem get_original_idx_mod0 {k i total : ℤ} (hk : 0 < k) (h : i % k = 0) :
    get_original_idx true i k total = if i + 1 < total then i + 1 else i := by
  have hq := Int.ediv_add_emod i k
  rw [h, add_zero] at hq
  have hqk : i / k * k = i := by rw [mul_comm]; exact hq
  simp only [get_original_idx]
  rw [if_neg (by simp [hk.not_le])]
  rw [h, hqk]
  simp

theorem get_original_idx_mod1 {k i total : ℤ} (hk : 0 < k) (h : i % k = 1) :
    get_original_idx true i k total = if i < total then i - 1 else i := by
  have hq := Int.ediv_add_emod i k
  rw [h] at hq
  have hqk : i / k * k = i - 1 := by linear_combination hq
  simp only [get_original_idx]
  rw [if_neg (by simp [hk.not_le])]
  rw [h, hqk]
  have hone : (1 : ℤ) ≠ 0 := by norm_num
  simp [hone]

theorem get_original_idx_modOther {k i total : ℤ} (hk : 0 < k)
    (h0 : i % k ≠ 0) (h1 : i % k ≠ 1) :
    get_original_idx true i k total = i := by
  simp only [get_original_idx]
  rw [if_neg (by simp [hk.not_le])]
  simp [h0, h1]

/-- C4 counterexample: the claim quantifies over every interval `k ≥ 1`,
but for `k = 1` (a value `config.validate` accepts) the remap is a shift,
not an involution: with 10 total frames it maps 0 to 1 and 1 to 2, so the
pair `(k·0, k·0+1) = (0, 1)` is not swapped and applying the remap twice to
index 0 yields 2, not 0. -/
theorem C4_involution_counterexample :
    get_original_idx true 0 1 10 = 1 ∧
    get_original_idx true 1 1 10 = 2 ∧
    get_original_idx true (get_original_idx true 0 1 10) 1 10 ≠ 0 := by
  decide

/-- C4 amended: the per-case description of the remap holds for every
interval `k ≥ 1` (with the partner bound applied to both swap cases), and
the swap/involution property holds for every interval `k ≥ 2`: for every
`n ≥ 0` with `k·n + 1 < total_frames` the remap exchanges `k·n` and
`k·n + 1`, and applying it twice to either index returns the original
index.  For `k = 1` the remap degenerates to a shift (see the
counterexample). -/
theorem C4_frame_swap_remap (k i n total : ℤ) (hk : 1 ≤ k) (hn : 0 ≤ n) :
    (i % k = 0 → get_original_idx true i k total =
      if i + 1 < total then i + 1 else i) ∧
    (i % k = 1 → get_original_idx true i k total =
      if i < total then i - 1 else i) ∧
    (i % k ≠ 0 → i % k ≠ 1 → get_original_idx true i k total = i) ∧
    (2 ≤ k → k * n + 1 < total →
      get_original_idx true (k * n) k total = k * n + 1 ∧
      get_original_idx true (k * n + 1) k total = k * n ∧
      get_original_idx true (get_original_idx true (k * n) k total) k total = k * n ∧
      get_original_idx true (get_original_idx true (k * n + 1) k total) k total
        = k * n + 1) := by
  have hk0 : (0 : ℤ) < k := by omega
  refine ⟨fun h => get_original_idx_mod0 hk0 h,
          fun h => get_original_idx_mod1 hk0 h,
          fun h0 h1 => get_original_idx_modOther hk0 h0 h1, ?_⟩
  intro hk2 hbound
  have hm0 : (k * n) % k = 0 := Int.mul_emod_right k n
  have hm1 : (k * n + 1) % k = 1 := by
    rw [add_comm, Int.add_mul_emod_self_left]
    exact Int.emod_eq_of_lt (by norm_num) (by omega)
  have e0 : get_original_idx true (k * n) k total = k * n + 1 := by
    rw [get_original_idx_mod0 hk0 hm0, if_pos hbound]
  have e1 : get_original_idx true (k * n + 1) k total = k * n := by
    rw [get_original_idx_mod1 hk0 hm1, if_pos hbound]
    omega
  exact ⟨e0, e1, by rw [e0, e1], by rw [e1, e0]⟩

/-- C4 witness: the amended remap theorem applied at the configuration
default interval 15, pair index n = 2, 100 total frames. -/
theorem C4_frame_swap_remap_witness :
    get_original_idx true 30 15 100 = 31 ∧
    get_original_idx true 31 15 100 = 30 ∧
    get_original_idx true (get_original_idx true 30 15 100) 15 100 = 30 ∧
    get_original_idx true (get_original_idx true 31 15 100) 15 100 = 31 :=
  (C4_frame_swap_remap 15 0 2 100 (by norm_num) (by norm_num)).2.2.2
    (by norm_num) (by norm_num)

/-!  C7 — the watermark endpoints. -/

theorem wm_left_x (rand : ℤ × ℤ) (i total vw vh ww wh : ℤ) :
    (get_watermark_position rand "left_to_right" i total vw vh ww wh).1 =
      20 + pyTrunc (((vw - ww - 40 : ℤ) : ℚ) * ((i : ℚ) / (total : ℚ))) := by
  simp only [get_watermark_position]
  rw [if_neg (by decide)]
  norm_num

/-- C7 counterexample: for `left_to_right` on a 100-frame 1000×1000 source
with a 100-pixel-wide watermark, the x coordinate at frame 0 is
`MARGIN = 20` as claimed, but at frame 99 it is
`20 + int((1000 - 100 - 40) * 99/100) = 871`, while the claimed value
`video_width - MARGIN - watermark_width = 880` differs by 9 — far outside
integer rounding. -/
theorem C7_endpoint_counterexample :
    (get_watermark_position (0, 0) "left_to_right" 0 100 1000 1000 100 100).1 = 20 ∧
    (get_watermark_position (0, 0) "left_to_right" 99 100 1000 1000 100 100).1 = 871 ∧
    (1000 - 20 - 100 : ℤ) = 880 ∧
    ¬(((get_watermark_position (0, 0) "left_to_right" 99 100 1000 1000 100 100).1
        - 880).natAbs ≤ 1) := by
  refine ⟨?_, ?_, by norm_num, ?_⟩
  · rw [wm_left_x]
    norm_num [pyTrunc]
  · rw [wm_left_x]
    norm_num [pyTrunc]
  · rw [wm_left_x]
    norm_num [pyTrunc]

/-- C7 amended: for `left_to_right` the x coordinate at frame 0 equals
`MARGIN = 20`, and at frame `i` equals
`MARGIN + int(range_x * i/total_frames)`; since `progress` never reaches 1
(the last frame has `progress = (total-1)/total`), the final x falls short
of the claimed right endpoint `video_width - MARGIN - watermark_width` by
about `range_x/total_frames` pixels (9 pixels in the claimed scenario),
not merely by rounding. -/
theorem C7_left_to_right (rand : ℤ × ℤ) (i total vw vh ww wh : ℤ)
    (htotal : 0 < total) :
    (get_watermark_position rand "left_to_right" i total vw vh ww wh).1 =
      20 + pyTrunc (((vw - ww - 40 : ℤ) : ℚ) * ((i : ℚ) / (total : ℚ))) ∧
    (get_watermark_position rand "left_to_right" 0 total vw vh ww wh).1 = 20 := by
  refine ⟨wm_left_x rand i total vw vh ww wh, ?_⟩
  rw [wm_left_x rand 0 total vw vh ww wh]
  norm_num [pyTrunc]

/-- C7 witness: the amended watermark theorem applied to the claimed
scenario (frame 99 of 100, 1000×1000, watermark width 100). -/
theorem C7_left_to_right_witness :
    (get_watermark_position (0, 0) "left_to_right" 99 100 1000 1000 100 100).1 =
      20 + pyTrunc (((1000 - 100 - 40 : ℤ) : ℚ) * ((99 : ℚ) / (100 : ℚ))) ∧
    (get_watermark_position (0, 0) "left_to_right" 0 100 1000 1000 100 100).1 = 20 :=
  C7_left_to_right (0, 0) 99 100 1000 1000 100 100 (by norm_num)

/-!  C8 — silence-removal duration. -/

theorem pyTrunc_mono {a b : ℚ} (ha : 0 ≤ a) (hab : a ≤ b) :
    pyTrunc a ≤ pyTrunc b := by
  unfold pyTrunc
  rw [if_pos ha, if_pos (le_trans ha hab)]
  exact Int.floor_le_floor hab

/-- C8 counterexample: on audio in which pydub detects no silence,
`split_on_silence` returns the entire 1000 ms input as the single chunk;
with `silent_duration = 500` and `silence_retention_ratio = 1/2` the code
appends `int(500 * 1/2) = 250` ms of silence after that chunk, so the
output lasts 1250 ms — longer than the 1000 ms input, violating the
claimed duration bound. -/
theorem C8_duration_counterexample :
    remove_silence_duration true (1 / 2) 500 1000 [1000] = 1250 ∧
    [1000].sum ≤ 1000 ∧
    ¬(remove_silence_duration true (1 / 2) 500 1000 [1000] ≤ 1000) := by
  have e : remove_silence_duration true (1 / 2) 500 1000 [1000] = 1250 := by
    simp only [remove_silence_duration]
    norm_num [pyTrunc]
    decide
  refine ⟨e, by norm_num, by rw [e]; norm_num⟩

/-- C8 amended: with `silence_retention_ratio = 0` the output is exactly
the concatenation of the non-silent chunks and its duration is bounded by
the input duration; and the output duration is monotone non-decreasing in
the retention value (hence non-increasing as it decreases toward 0).  For
a positive retention the duration bound can fail, because
`int(silent_duration * retention)` ms is appended after every chunk,
including the last (see the counterexample). -/
theorem C8_silence_duration (en : Bool) (sd inputDur : ℕ)
    (chunks : List ℕ) (r1 r2 : ℚ)
    (h0 : 0 ≤ r1) (h12 : r1 ≤ r2) (hsum : chunks.sum ≤ inputDur) :
    remove_silence_duration en 0 sd inputDur chunks ≤ inputDur ∧
    remove_silence_duration en r1 sd inputDur chunks ≤
      remove_silence_duration en r2 sd inputDur chunks := by
  unfold remove_silence_duration
  constructor
  · split
    · exact le_refl _
    split
    · exact le_refl _
    · simpa using hsum
  · split
    · exact le_refl _
    split
    · exact le_refl _
    · apply List.sum_le_sum
      intro c _
      have hterm : (if 0 < r1 then (pyTrunc ((sd : ℚ) * r1)).toNat else 0) ≤
          (if 0 < r2 then (pyTrunc ((sd : ℚ) * r2)).toNat else 0) := by
        split
        · rename_i hr1
          rw [if_pos (lt_of_lt_of_le hr1 h12)]
          exact Int.toNat_le_toNat (pyTrunc_mono
            (mul_nonneg (by positivity) (le_of_lt hr1))
            (mul_le_mul_of_nonneg_left h12 (by positivity)))
        · exact Nat.zero_le _
      omega

/-- C8 witness: the amended silence-duration theorem applied to a concrete
two-chunk split of a 1000 ms input with retention values 1/4 ≤ 1/2. -/
theorem C8_silence_duration_witness :
    remove_silence_duration true 0 500 1000 [400, 200] ≤ 1000 ∧
    remove_silence_duration true (1 / 4) 500 1000 [400, 200] ≤
      remove_silence_duration true (1 / 2) 500 1000 [400, 200] :=
  C8_silence_duration true 500 1000 [400, 200] (1 / 4) (1 / 2)
    (by norm_num) (by norm_num) (by norm_num)

/-!  C2 — raster dimensions through the effect chain. -/

theorem dimsOf_cvtColorSwap (f : Frame) : dimsOf (cvtColorSwap f) = dimsOf f := rfl

theorem dimsOf_flipH (f : Frame) : dimsOf (flipH f) = dimsOf f := rfl

theorem dimsOf_rotate_frame (P : Prims) (cfg : VideoConfig) (f : Frame) :
    dimsOf (rotate_frame P cfg f) = dimsOf f := by
  unfold rotate_frame
  split <;> rfl

theorem dimsOf_cropResize (P : Prims) (cfg : VideoConfig) (oh ow : ℕ) (f : Frame) :
    dimsOf (cropResize P cfg oh ow f) = (oh, ow) := by
  simp only [cropResize]
  split <;> split <;>
    first
      | rfl
      | (rename_i hcond
         push_neg at hcond
         exact Prod.ext hcond.1 hcond.2)

theorem dimsOf_adjust_sbc (P : Prims) (cfg : VideoConfig) (f : Frame) :
    dimsOf (adjust_sbc P cfg f) = dimsOf f := by
  unfold adjust_sbc
  split <;> rfl

theorem dimsOf_add_watermark (P : Prims) (E : Ext) (cfg : VideoConfig)
    (i total : ℤ) (f : Frame) :
    dimsOf (add_watermark P E cfg i total f) = dimsOf f := by
  simp only [add_watermark]
  split
  · rfl
  split
  · split <;> rfl
  · rfl

theorem dimsOf_add_subtitles (P : Prims) (E : Ext) (cfg : VideoConfig) (f : Frame) :
    dimsOf (add_subtitles P E cfg f) = dimsOf f := by
  unfold add_subtitles
  split
  · rfl
  split <;> rfl

theorem dimsOf_add_titles (P : Prims) (f : Frame) :
    dimsOf (add_titles P f) = dimsOf f := rfl

theorem dimsOf_add_hzh_effect {P : Prims} {E : Ext} {cfg : VideoConfig}
    {i : ℤ} {f f2 : Frame} (h : add_hzh_effect P E cfg i f = .ok f2) :
    dimsOf f2 = dimsOf f := by
  simp only [add_hzh_effect] at h
  split at h
  · cases h
    rfl
  split at h
  · cases h
  split at h
  · cases h
    rfl
  split at h <;> cases h <;> rfl

theorem dimsOf_color_shift (E : Ext) (cfg : VideoConfig) (f : Frame) :
    dimsOf (color_shift E cfg f) = dimsOf f := by
  unfold color_shift
  split <;> rfl

theorem dimsOf_blur_background {P : Prims} {cfg : VideoConfig} {f f2 : Frame}
    (h : blur_background P cfg f = .ok f2) : dimsOf f2 = dimsOf f := by
  simp only [blur_background] at h
  split at h
  · cases h
    rfl
  · simp only [except_bind_ok, Pure.pure, Except.pure, Except.ok.injEq] at h
    obtain ⟨g1, -, g2, -, g3, -, g4, -, hr⟩ := h
    rw [← hr]
    rfl

theorem dimsOf_scramble_phase (P : Prims) (cfg : VideoConfig) (f : Frame) :
    dimsOf (scramble_phase P cfg f) = dimsOf f := by
  unfold scramble_phase
  split <;> rfl

theorem dimsOf_add_texture_noise (P : Prims) (cfg : VideoConfig) (f : Frame) :
    dimsOf (add_texture_noise P cfg f) = dimsOf f := by
  unfold add_texture_noise
  split <;> rfl

theorem dimsOf_apply_edge_blur (P : Prims) (cfg : VideoConfig) (f : Frame) :
    dimsOf (apply_edge_blur P cfg f) = dimsOf f := by
  unfold apply_edge_blur
  split <;> rfl

theorem dimsOf_apply_gaussian_blur {P : Prims} {cfg : VideoConfig} {i : ℤ}
    {f f2 : Frame} (h : apply_gaussian_blur P cfg i f = .ok f2) :
    dimsOf f2 = dimsOf f := by
  simp only [apply_gaussian_blur] at h
  split at h
  · cases h
    rfl
  · simp only [except_bind_ok, Pure.pure, Except.pure, Except.ok.injEq] at h
    obtain ⟨g1, -, g2, -, g3, -, g4, -, hr⟩ := h
    rw [← hr]
    rfl

theorem dimsOf_apply_fade_effect {P : Prims} {cfg : VideoConfig}
    {i total : ℤ} {f f2 : Frame} (h : apply_fade_effect P cfg i total f = .ok f2) :
    dimsOf f2 = dimsOf f := by
  unfold apply_fade_effect at h
  split at h
  · split at h
    · cases h
    · cases h
      rfl
  split at h
  · split at h
    · cases h
    · cases h
      rfl
  · cases h
    rfl

theorem dimsOf_apply_hash_disruption (P : Prims) (cfg : VideoConfig) (f : Frame) :
    dimsOf (apply_hash_disruption P cfg f) = dimsOf f := by
  unfold apply_hash_disruption
  split <;> rfl

theorem dimsOf_apply_vignette (P : Prims) (cfg : VideoConfig) (f : Frame) :
    dimsOf (apply_vignette P cfg f) = dimsOf f := by
  unfold apply_vignette
  split <;> rfl

theorem dimsOf_paintBorder (f : Frame) (bw : ℕ) (c : Pixel) :
    dimsOf (paintBorder f bw c) = dimsOf f := rfl

theorem dimsOf_apply_dynamic_border {P : Prims} {cfg : VideoConfig}
    {i total : ℤ} {f f2 : Frame}
    (h : apply_dynamic_border P cfg i total f = .ok f2) :
    dimsOf f2 = dimsOf f := by
  simp only [apply_dynamic_border] at h
  split at h
  · cases h
    rfl
  split at h
  · rw [except_bind_ok] at h
    obtain ⟨c, -, h⟩ := h
    simp only [Pure.pure, Except.pure, Except.ok.injEq] at h
    rw [← h]
    rfl
  split at h
  · rw [except_bind_ok] at h
    obtain ⟨c1, -, h⟩ := h
    rw [except_bind_ok] at h
    obtain ⟨c2, -, h⟩ := h
    simp only [Pure.pure, Except.pure, Except.ok.injEq] at h
    rw [← h]
    rfl
  split at h
  · simp only [Pure.pure, Except.pure, Except.ok.injEq] at h
    rw [← h]
    rfl
  · simp only [Pure.pure, Except.pure, Except.ok.injEq] at h
    rw [← h]

theorem dimsOf_apply_sticker {P : Prims} {E : Ext} {cfg : VideoConfig}
    {i : ℤ} {f f2 : Frame} (h : apply_sticker P E cfg i f = .ok f2) :
    dimsOf f2 = dimsOf f := by
  simp only [apply_sticker] at h
  split at h
  · cases h
    rfl
  split at h
  · cases h
    rfl
  split at h
  · cases h
    rfl
  · split at h <;> cases h <;> first | rfl | (unfold stickerTryBody at *; rename_i hb; split at hb <;> cases hb <;> rfl)

theorem dimsOf_apply_dct_perturbation (P : Prims) (cfg : VideoConfig) (f : Frame) :
    dimsOf (apply_dct_perturbation P cfg f) = dimsOf f := by
  unfold apply_dct_perturbation
  split <;> rfl

/-- C2: for every decoded frame and every configuration with
`crop_percentage ∈ [0, 0.5]`, whenever `_process_single_frame` returns a
frame (no effect raised), that frame's raster dimensions equal the source
video's probed width and height: the crop/resize step restores
`(orig_height, orig_width)` and every later effect preserves the raster
size. -/
theorem dimsOf_preEffects (P : Prims) (E : Ext) (cfg : VideoConfig)
    (i total : ℤ) (origH origW : ℕ) (f : Frame) :
    dimsOf (preEffects P E cfg i total origH origW f) = (origH, origW) := by
  unfold preEffects
  split <;> split <;> split <;> split <;>
    simp only [dimsOf_add_titles, dimsOf_add_subtitles, dimsOf_add_watermark,
      dimsOf_adjust_sbc, dimsOf_cropResize]

theorem dimsOf_midEffects {P : Prims} {E : Ext} {cfg : VideoConfig}
    {i : ℤ} {f f2 : Frame} (h : midEffects P E cfg i f = .ok f2) :
    dimsOf f2 = dimsOf f := by
  unfold midEffects at h
  rw [except_bind_ok] at h
  obtain ⟨a, h1, h2⟩ := h
  have d1 := dimsOf_blur_background h1
  have d2 := dimsOf_apply_gaussian_blur h2
  rw [d2, dimsOf_apply_edge_blur, dimsOf_add_texture_noise, dimsOf_scramble_phase,
    d1, dimsOf_color_shift]

theorem dimsOf_postFadeEffects (P : Prims) (cfg : VideoConfig) (f : Frame) :
    dimsOf (postFadeEffects P cfg f) = dimsOf f := by
  unfold postFadeEffects
  rw [dimsOf_apply_vignette, dimsOf_apply_hash_disruption]

/-- C2: for every decoded frame and every configuration with
`crop_percentage ∈ [0, 0.5]`, whenever `_process_single_frame` returns a
frame (no effect raised), that frame's raster dimensions equal the source
video's probed width and height: the crop/resize step restores
`(orig_height, orig_width)` and every later effect preserves the raster
size. -/
theorem C2_dimension_invariant (P : Prims) (E : Ext) (cfg : VideoConfig)
    (total : ℤ) (origH origW : ℕ) (i : ℤ) (f : Frame) (r : ℤ × Frame)
    (hcp0 : 0 ≤ cfg.crop_percentage) (hcp1 : cfg.crop_percentage ≤ 1 / 2)
    (h : processSingleFrame P E cfg total origH origW i f = .ok r) :
    r.2.h = origH ∧ r.2.w = origW := by
  unfold processSingleFrame at h
  simp only [except_bind_ok, Pure.pure, Except.pure, Except.ok.injEq] at h
  obtain ⟨a1, h1, a2, h2, a3, h3, a4, h4, a5, h5, hr⟩ := h
  have d1 := dimsOf_add_hzh_effect h1
  have d2 := dimsOf_midEffects h2
  have d3 := dimsOf_apply_fade_effect h3
  have d4 := dimsOf_apply_dynamic_border h4
  have d5 := dimsOf_apply_sticker h5
  rw [dimsOf_preEffects] at d1
  rw [d1] at d2
  rw [d2] at d3
  rw [dimsOf_postFadeEffects, d3] at d4
  rw [d4] at d5
  have dr : dimsOf r.2 = (origH, origW) := by
    rw [← hr]
    simp only [dimsOf_cvtColorSwap, dimsOf_apply_dct_perturbation]
    exact d5
  exact ⟨congrArg Prod.fst dr, congrArg Prod.snd dr⟩

/-- C2 witness: the dimension invariant applied to a concrete run of the
chain on the 2×2 test frame with the all-off configuration. -/
theorem C2_dimension_invariant_witness :
    (okFrame (processSingleFrame trivPrims trivExt cfgAllOff 3 2 2 0 testFrame)).h = 2 ∧
    (okFrame (processSingleFrame trivPrims trivExt cfgAllOff 3 2 2 0 testFrame)).w = 2 := by
  have hok : processSingleFrame trivPrims trivExt cfgAllOff 3 2 2 0 testFrame =
      .ok (0, okFrame (processSingleFrame trivPrims trivExt cfgAllOff 3 2 2 0 testFrame)) :=
    processSingleFrame_ok_shape ⟨_, rfl⟩
  exact C2_dimension_invariant trivPrims trivExt cfgAllOff 3 2 2 0 testFrame _
    (by norm_num [cfgAllOff]) (by norm_num [cfgAllOff]) hok

/-!  C5 — disabled-effect identity. -/

/-- C5: every effect with an enable toggle or asset precondition returns
the input frame unchanged, raising no exception (the `Except` effects
return `.ok` of the very input), when it is disabled or its required asset
is missing: vignette, phase scramble, DCT perturbation, texture noise,
hash disruption, dynamic border (toggle or non-positive width), sticker
(toggle, missing folder, or empty folder), background blur, color shift,
saturation/brightness/contrast, picture-in-picture (toggle or missing
file), and the image watermark with no loaded asset. -/
theorem C5_disabled_effects_identity (P : Prims) (E : Ext) (cfg : VideoConfig)
    (i total : ℤ) (f : Frame) :
    (cfg.enable_vignette = false → apply_vignette P cfg f = f) ∧
    (cfg.scramble_frequency = 0 → scramble_phase P cfg f = f) ∧
    (cfg.enable_dct_perturbation = false → apply_dct_perturbation P cfg f = f) ∧
    (cfg.enable_texture_noise = false → add_texture_noise P cfg f = f) ∧
    (cfg.enable_hash_disruption = false → apply_hash_disruption P cfg f = f) ∧
    (cfg.enable_dynamic_border = false ∨ cfg.border_width ≤ 0 →
      apply_dynamic_border P cfg i total f = .ok f) ∧
    (cfg.enable_sticker = false ∨ E.stickerFolderExists = false ∨ E.stickerFiles = [] →
      apply_sticker P E cfg i f = .ok f) ∧
    (cfg.blur_background_enabled = false → blur_background P cfg f = .ok f) ∧
    (cfg.enable_color_shift = false → color_shift E cfg f = f) ∧
    (cfg.enable_sbc = false → adjust_sbc P cfg f = f) ∧
    (cfg.include_hzh = false ∨ E.hzhExists = false →
      add_hzh_effect P E cfg i f = .ok f) ∧
    (cfg.watermark_type = "image" → E.wmLoaded = false →
      add_watermark P E cfg i total f = f) := by
  refine ⟨?_, ?_, ?_, ?_, ?_, ?_, ?_, ?_, ?_, ?_, ?_, ?_⟩
  · intro h
    simp [apply_vignette, h]
  · intro h
    simp [scramble_phase, h]
  · intro h
    simp [apply_dct_perturbation, h]
  · intro h
    simp [add_texture_noise, h]
  · intro h
    simp [apply_hash_disruption, h]
  · intro h
    rcases h with h | h
    · simp [apply_dynamic_border, h]
    · simp only [apply_dynamic_border]
      rw [if_pos (Or.inr h)]
  · intro h
    rcases h with h | h | h <;> simp [apply_sticker, h]
  · intro h
    simp [blur_background, h]
  · intro h
    simp [color_shift, h]
  · intro h
    simp [adjust_sbc, h]
  · intro h
    rcases h with h | h <;> simp [add_hzh_effect, h]
  · intro hty hwm
    simp [add_watermark, hty, hwm]

/-- C5 witness: the disabled-effect identities instantiated on the all-off
configuration, the empty environment and a concrete frame. -/
theorem C5_disabled_effects_identity_witness :
    apply_vignette trivPrims cfgAllOff testFrame = testFrame ∧
    scramble_phase trivPrims cfgAllOff testFrame = testFrame ∧
    apply_dct_perturbation trivPrims cfgAllOff testFrame = testFrame ∧
    apply_dynamic_border trivPrims cfgAllOff 0 3 testFrame = .ok testFrame ∧
    apply_sticker trivPrims trivExt cfgAllOff 0 testFrame = .ok testFrame ∧
    blur_background trivPrims cfgAllOff testFrame = .ok testFrame ∧
    add_hzh_effect trivPrims trivExt cfgAllOff 0 testFrame = .ok testFrame := by
  have h := C5_disabled_effects_identity trivPrims trivExt cfgAllOff 0 3 testFrame
  exact ⟨h.1 rfl, h.2.1 rfl, h.2.2.1 rfl, h.2.2.2.2.2.1 (Or.inl rfl),
    h.2.2.2.2.2.2.1 (Or.inl rfl), h.2.2.2.2.2.2.2.1 rfl,
    h.2.2.2.2.2.2.2.2.2.2.1 (Or.inl rfl)⟩

/-!  C10 — the negative-zero slice quirk of `blur_background`. -/

theorem rowSlice_full (f : Frame) : rowSlice f 0 f.h = f := by
  unfold rowSlice
  refine Frame.ext ?_ rfl ?_
  · simp
  · funext i j
    simp

theorem colSlice_full (f : Frame) : colSlice f 0 f.w = f := by
  unfold colSlice
  refine Frame.ext rfl ?_ ?_
  · simp
  · funext i j
    simp

theorem negSliceStart_zero (n : ℕ) : negSliceStart 0 n = 0 := by
  simp [negSliceStart]

/-- C10 counterexample: with background blur enabled and all three blur
percentages 0 — precisely the case the claim highlights — the source first
executes `cv2.GaussianBlur(frame[:0, :], (21, 21), 0)` (line 1156) on an
empty array, and OpenCV 4.2+ raises `cv2.error` from its
`CV_Assert(!_src.empty())` before the bottom `frame[-0:, :]` slice of line
1157 is ever evaluated: no whole-frame blur happens and no frame is
returned at all, contradicting the claimed behavior. -/
theorem C10_blur_error_counterexample :
    cfgBlurOn.blur_background_enabled = true ∧
    testFrame.h * cfgBlurOn.top_blur_percentage / 100 = 0 ∧
    testFrame.h * cfgBlurOn.bottom_blur_percentage / 100 = 0 ∧
    testFrame.w * cfgBlurOn.side_blur_percentage / 100 = 0 ∧
    blur_background constGaussPrims cfgBlurOn testFrame = .error PyErr.cv2Error := by
  exact ⟨rfl, rfl, rfl, rfl, rfl⟩

/-- C10 amended: the negative-zero slice does select the entire frame
(`negSliceStart 0 n = 0`, and the row slice over `[0, h)` is the whole
frame), but only the bottom band can reach it: whenever the computed top
band is 0 — in particular with all three percentages 0 —
`cv2.GaussianBlur` is first called on the empty `frame[:0, :]` and raises
`cv2.error`, so `blur_background` returns no frame; whereas with a
positive top band, a zero bottom band and a positive side band, the bottom
assignment `frame[-0:, :] = GaussianBlur(frame[-0:, :], ...)` does blur
the entire frame: the effect returns a frame in which every pixel outside
the subsequently painted side bands equals the whole-frame Gaussian blur
of the top-blurred frame — not the unchanged input. -/
theorem C10_blur_background_zero_band (P : Prims) (cfg : VideoConfig) (f : Frame)
    (hen : cfg.blur_background_enabled = true)
    (hw : 0 < f.w)
    (htop : 0 < f.h * cfg.top_blur_percentage / 100)
    (hbot : f.h * cfg.bottom_blur_percentage / 100 = 0)
    (hside : 0 < f.w * cfg.side_blur_percentage / 100) :
    negSliceStart 0 f.h = 0 ∧
    rowSlice f (negSliceStart 0 f.h) f.h = f ∧
    (∀ (P2 : Prims) (cfg2 : VideoConfig) (f2 : Frame),
      cfg2.blur_background_enabled = true →
      f2.h * cfg2.top_blur_percentage / 100 = 0 →
      blur_background P2 cfg2 f2 = .error PyErr.cv2Error) ∧
    (∃ r : Frame, blur_background P cfg f = .ok r ∧ r.h = f.h ∧ r.w = f.w ∧
      ∀ i j, i < f.h → f.w * cfg.side_blur_percentage / 100 ≤ j →
        j < negSliceStart (f.w * cfg.side_blur_percentage / 100) f.w →
        r.px i j = P.gauss
          (writeRows f 0 (f.h * cfg.top_blur_percentage / 100)
            (P.gauss (rowSlice f 0 (f.h * cfg.top_blur_percentage / 100)))) i j) := by
  have hh : 0 < f.h := by
    rcases Nat.eq_zero_or_pos f.h with h0 | h1
    · rw [h0] at htop
      simp at htop
    · exact h1
  refine ⟨negSliceStart_zero f.h, ?_, ?_, ?_⟩
  · rw [negSliceStart_zero]
    exact rowSlice_full f
  · intro P2 cfg2 f2 hen2 htop2
    simp only [blur_background]
    rw [if_neg (by simp [hen2])]
    rw [htop2]
    rfl
  · simp only [blur_background]
    rw [if_neg (by simp [hen])]
    rw [hbot]
    set t := f.h * cfg.top_blur_percentage / 100 with ht
    set s := f.w * cfg.side_blur_percentage / 100 with hs
    simp only [negSliceStart_zero]
    have hg1 : gaussBlurBand P (rowSlice f 0 t) = .ok (P.gauss (rowSlice f 0 t)) := by
      simp only [gaussBlurBand, rowSlice]
      rw [if_neg (by omega)]
    rw [hg1]
    simp only [except_ok_bind]
    rw [rowSlice_full]
    have hg2 : gaussBlurBand P (writeRows f 0 t (P.gauss (rowSlice f 0 t))) =
        .ok (P.gauss (writeRows f 0 t (P.gauss (rowSlice f 0 t)))) := by
      simp only [gaussBlurBand, writeRows]
      rw [if_neg (by omega)]
    rw [hg2]
    simp only [except_ok_bind]
    have hg3 : gaussBlurBand P
        (colSlice (writeRows (writeRows f 0 t (P.gauss (rowSlice f 0 t))) 0
          (writeRows f 0 t (P.gauss (rowSlice f 0 t))).h
          (P.gauss (writeRows f 0 t (P.gauss (rowSlice f 0 t))))) 0 s) =
        .ok (P.gauss
          (colSlice (writeRows (writeRows f 0 t (P.gauss (rowSlice f 0 t))) 0
            (writeRows f 0 t (P.gauss (rowSlice f 0 t))).h
            (P.gauss (writeRows f 0 t (P.gauss (rowSlice f 0 t))))) 0 s)) := by
      simp only [gaussBlurBand, colSlice, writeRows]
      rw [if_neg (by omega)]
    rw [hg3]
    simp only [except_ok_bind]
    set W := writeRows f 0 t (P.gauss (rowSlice f 0 t)) with hW
    set f2b := writeRows W 0 W.h (P.gauss W) with hf2b
    set f3b := writeCols f2b 0 s (P.gauss (colSlice f2b 0 s)) with hf3b
    have hg4 : gaussBlurBand P (colSlice f3b (negSliceStart s f3b.w) f3b.w) =
        .ok (P.gauss (colSlice f3b (negSliceStart s f3b.w) f3b.w)) := by
      have h1 : (colSlice f3b (negSliceStart s f3b.w) f3b.w).h = f.h := rfl
      have h2 : (colSlice f3b (negSliceStart s f3b.w) f3b.w).w =
          f.w - negSliceStart s f.w := rfl
      have h3 : negSliceStart s f.w = f.w - s := by
        unfold negSliceStart
        rw [if_neg (by omega)]
      have hc : ¬((colSlice f3b (negSliceStart s f3b.w) f3b.w).h = 0 ∨
          (colSlice f3b (negSliceStart s f3b.w) f3b.w).w = 0) := by
        rw [h1, h2, h3]
        omega
      unfold gaussBlurBand
      rw [if_neg hc]
    rw [hg4]
    simp only [except_ok_bind, Pure.pure, Except.pure]
    refine ⟨_, rfl, rfl, rfl, ?_⟩
    intro i j hi hj1 hj2
    have hw3 : f3b.w = f.w := rfl
    simp only [writeCols]
    rw [if_neg (by rw [hw3]; omega)]
    simp only [hf3b, writeCols]
    rw [if_neg (by omega)]
    simp only [hf2b, writeRows]
    rw [if_pos ⟨Nat.zero_le i, show i < W.h from hi⟩]
    rw [Nat.sub_zero]

/-- C10 witness: the amended theorem applied to the concrete mixed
configuration (top band 1, bottom band 0, side band 1 on a 2×4 frame),
and its error clause instantiated at the all-zero configuration on the
test frame. -/
theorem C10_blur_background_zero_band_witness :
    negSliceStart 0 wideFrame.h = 0 ∧
    rowSlice wideFrame (negSliceStart 0 wideFrame.h) wideFrame.h = wideFrame ∧
    blur_background trivPrims cfgBlurOn testFrame = .error PyErr.cv2Error ∧
    (∃ r : Frame, blur_background constGaussPrims cfgBlurMix wideFrame = .ok r ∧
      r.h = wideFrame.h ∧ r.w = wideFrame.w ∧
      ∀ i j, i < wideFrame.h →
        wideFrame.w * cfgBlurMix.side_blur_percentage / 100 ≤ j →
        j < negSliceStart (wideFrame.w * cfgBlurMix.side_blur_percentage / 100)
          wideFrame.w →
        r.px i j = constGaussPrims.gauss
          (writeRows wideFrame 0 (wideFrame.h * cfgBlurMix.top_blur_percentage / 100)
            (constGaussPrims.gauss (rowSlice wideFrame 0
              (wideFrame.h * cfgBlurMix.top_blur_percentage / 100)))) i j) := by
  have h := C10_blur_background_zero_band constGaussPrims cfgBlurMix wideFrame
    rfl (by decide) (by decide) (by decide) (by decide)
  exact ⟨h.1, h.2.1, h.2.2.1 trivPrims cfgBlurOn testFrame rfl rfl, h.2.2.2⟩

/-!  C9 — the vignette mask at the frame center. -/

/-- C9: for every frame size and every `vignette_strength ∈ [0,1]`,
`vignette_radius ∈ [0.3, 2]`, the vignette attenuation mask evaluated at
the exact frame center `(w/2, h/2)` (distance 0) equals 1.0; consequently,
when both dimensions are even (so that a pixel sits exactly at the
center), `apply_vignette` leaves that pixel's byte value unchanged. -/
theorem C9_vignette_center (h w : ℕ) (s r : ℝ) (px : ℕ)
    (hh : 0 < h) (hw : 0 < w)
    (hs0 : 0 ≤ s) (hs1 : s ≤ 1) (hr0 : (0.3 : ℝ) ≤ r) (hr1 : r ≤ 2) :
    vignette_mask h w s r ((w : ℝ) / 2) ((h : ℝ) / 2) = 1 ∧
    (h % 2 = 0 → w % 2 = 0 → px ≤ 255 →
      apply_vignette_px true h w s r (h / 2) (w / 2) px = px) := by
  have hmask : vignette_mask h w s r ((w : ℝ) / 2) ((h : ℝ) / 2) = 1 := by
    simp only [vignette_mask, sub_self]
    norm_num [Real.sqrt_zero, clip01]
  refine ⟨hmask, ?_⟩
  intro hhe hwe hpx
  have hcw : ((w / 2 : ℕ) : ℝ) = (w : ℝ) / 2 := by
    rw [Nat.cast_div (by omega) (by norm_num)]
    norm_num
  have hch : ((h / 2 : ℕ) : ℝ) = (h : ℝ) / 2 := by
    rw [Nat.cast_div (by omega) (by norm_num)]
    norm_num
  simp only [apply_vignette_px]
  rw [if_neg (by simp)]
  rw [hcw, hch, hmask, mul_one]
  simp only [uint8OfReal, Int.floor_natCast, Int.toNat_natCast]
  exact Nat.mod_eq_of_lt (by omega)

/-- C9 witness: the vignette-center theorem applied to a 4×4 frame with
strength 1/2, radius 1 and center pixel value 200. -/
theorem C9_vignette_center_witness :
    vignette_mask 4 4 (1 / 2) 1 (((4 : ℕ) : ℝ) / 2) (((4 : ℕ) : ℝ) / 2) = 1 ∧
    apply_vignette_px true 4 4 (1 / 2) 1 (4 / 2) (4 / 2) 200 = 200 := by
  have h := C9_vignette_center 4 4 (1 / 2) 1 200 (by norm_num) (by norm_num)
    (by norm_num) (by norm_num) (by norm_num) (by norm_num)
  exact ⟨h.1, h.2 rfl rfl (by norm_num)⟩

/-!  C3 — phase-scramble magnitude preservation. -/

theorem fft2_chEx : ∀ (k : Fin 1) (l : Fin 2),
    fft2 (fun a b => ((chEx a b : ℝ) : ℂ)) k l = ((2 : ℝ) : ℂ) := by
  intro k l
  fin_cases k <;> fin_cases l <;>
    norm_num [fft2, chEx, Fin.sum_univ_two, Fin.sum_univ_one, Complex.exp_zero]
theorem channelSpectrum_chEx : ∀ (k : Fin 1) (l : Fin 2), channelSpectrum chEx k l = ((2 : ℝ) : ℂ) := by
  intro k l
  simp only [channelSpectrum, fftshift]
  exact fft2_chEx _ _

theorem scramble_recon_chEx : ∀ (k : Fin 1) (l : Fin 2),
    scramble_recon noiseEx chEx k l = 2 * Complex.exp ((noiseEx k l : ℝ) * Complex.I) := by
  intro k l
  simp only [scramble_recon, channelSpectrum_chEx]
  rw [Complex.abs_ofReal, Complex.arg_ofReal_of_nonneg (by norm_num)]
  norm_num

theorem ifftshift_chEx_zero : ifftshift (scramble_recon noiseEx chEx) 0 0 =
    scramble_recon noiseEx chEx 0 1 := by
  simp only [ifftshift, shiftIdx]
  rfl

theorem ifftshift_chEx_one : ifftshift (scramble_recon noiseEx chEx) 0 1 =
    scramble_recon noiseEx chEx 0 0 := by
  simp only [ifftshift, shiftIdx]
  rfl

theorem ifftshift_recon_chEx_zero : ifftshift (scramble_recon noiseEx chEx) 0 0 = ((2 : ℝ) : ℂ) := by
  rw [ifftshift_chEx_zero, scramble_recon_chEx]
  norm_num [noiseEx]

theorem ifftshift_recon_chEx_one : ifftshift (scramble_recon noiseEx chEx) 0 1 =
    2 * Complex.exp (((1 / 2 : ℝ)) * Complex.I) := by
  rw [ifftshift_chEx_one, scramble_recon_chEx]
  norm_num [noiseEx]
theorem ifft2_chEx_zero : ifft2 (ifftshift (scramble_recon noiseEx chEx)) 0 0 =
    1 + Complex.exp (((1 / 2 : ℝ) : ℂ) * Complex.I) := by
  simp only [ifft2, Fin.sum_univ_one, Fin.sum_univ_two]
  rw [ifftshift_recon_chEx_zero, ifftshift_recon_chEx_one]
  norm_num [Complex.exp_zero]
  ring

theorem ifft2_chEx_one : ifft2 (ifftshift (scramble_recon noiseEx chEx)) 0 1 =
    1 - Complex.exp (((1 / 2 : ℝ) : ℂ) * Complex.I) := by
  simp only [ifft2, Fin.sum_univ_one, Fin.sum_univ_two]
  rw [ifftshift_recon_chEx_zero, ifftshift_recon_chEx_one]
  norm_num [Complex.exp_zero]
  rw [show (2 : ℂ) * (Real.pi : ℂ) * (1 / 2) * Complex.I = (Real.pi : ℂ) * Complex.I from by
    ring]
  rw [Complex.exp_pi_mul_I]
  ring
theorem cos_half_lb : 7 / 8 ≤ Real.cos (1 / 2) := by
  have h := Real.one_sub_sq_div_two_le_cos (x := (1 / 2 : ℝ))
  norm_num at h
  linarith

theorem cos_half_ub : Real.cos (1 / 2) < 1 := by
  refine lt_of_le_of_ne (Real.cos_le_one _) ?_
  intro heq
  have h1 : -(2 * Real.pi) < (1 / 2 : ℝ) := by nlinarith [Real.pi_gt_three]
  have h2 : (1 / 2 : ℝ) < 2 * Real.pi := by nlinarith [Real.pi_gt_three]
  rw [Real.cos_eq_one_iff_of_lt_of_lt h1 h2] at heq
  norm_num at heq

theorem abs_one_add_exp_half : Complex.abs (1 + Complex.exp (((1 / 2 : ℝ) : ℂ) * Complex.I)) ^ 2 =
    2 + 2 * Real.cos (1 / 2) := by
  rw [Complex.sq_abs, Complex.normSq_apply, Complex.add_re, Complex.add_im,
    Complex.one_re, Complex.one_im, Complex.exp_ofReal_mul_I_re, Complex.exp_ofReal_mul_I_im]
  linear_combination Real.sin_sq_add_cos_sq (1 / 2 : ℝ)

theorem abs_one_sub_exp_half : Complex.abs (1 - Complex.exp (((1 / 2 : ℝ) : ℂ) * Complex.I)) ^ 2 =
    2 - 2 * Real.cos (1 / 2) := by
  rw [Complex.sq_abs, Complex.normSq_apply, Complex.sub_re, Complex.sub_im,
    Complex.one_re, Complex.one_im, Complex.exp_ofReal_mul_I_re, Complex.exp_ofReal_mul_I_im]
  linear_combination Real.sin_sq_add_cos_sq (1 / 2 : ℝ)

theorem scramble_channel_chEx_zero : scramble_channel noiseEx chEx 0 0 = 1 := by
  simp only [scramble_channel]
  rw [ifft2_chEx_zero]
  set v := Complex.abs (1 + Complex.exp (((1 / 2 : ℝ) : ℂ) * Complex.I)) with hv
  have hvnn : 0 ≤ v := Complex.abs.nonneg _
  have h1 : (1 : ℝ) ≤ v := by nlinarith [abs_one_add_exp_half, cos_half_lb]
  have h2 : v < 2 := by nlinarith [abs_one_add_exp_half, cos_half_ub]
  rw [uint8OfReal]
  rw [show ⌊v⌋ = 1 from Int.floor_eq_iff.mpr ⟨by exact_mod_cast h1, by norm_num [h2]⟩]
  rfl

theorem scramble_channel_chEx_one : scramble_channel noiseEx chEx 0 1 = 0 := by
  simp only [scramble_channel]
  rw [ifft2_chEx_one]
  set v := Complex.abs (1 - Complex.exp (((1 / 2 : ℝ) : ℂ) * Complex.I)) with hv
  have hvnn : 0 ≤ v := Complex.abs.nonneg _
  have h2 : v < 1 := by nlinarith [abs_one_sub_exp_half, cos_half_lb]
  rw [uint8OfReal]
  rw [show ⌊v⌋ = 0 from Int.floor_eq_iff.mpr ⟨by exact_mod_cast hvnn, by norm_num [h2]⟩]
  rfl

theorem fft2_of_output_chEx : fft2 (fun a b => ((scramble_channel noiseEx chEx a b : ℝ) : ℂ)) 0 0
    = ((1 : ℝ) : ℂ) := by
  norm_num [fft2, Fin.sum_univ_two, Fin.sum_univ_one, scramble_channel_chEx_zero, scramble_channel_chEx_one, Complex.exp_zero]

/-- C3 counterexample: for the concrete 1-by-2 channel `(2, 0)` with
`scramble_frequency = 1` and the in-bounds noise draw `(1/2, 0)` radians,
the scrambled channel comes out as `(1, 0)` (after the inverse FFT, the
`np.abs`, and the `uint8` cast), whose FFT magnitude at the zero frequency
is 1, while the input channel's is 2 — the output frame's magnitude
spectrum is not preserved bit-for-bit. -/
theorem C3_magnitude_counterexample :
    |noiseEx 0 0| ≤ 1 ∧ |noiseEx 0 1| ≤ 1 ∧
    Complex.abs (fft2 (fun a b => ((scramble_channel noiseEx chEx a b : ℝ) : ℂ)) 0 0) ≠
      Complex.abs (fft2 (fun a b => ((chEx a b : ℝ) : ℂ)) 0 0) := by
  refine ⟨?_, by norm_num [noiseEx], ?_⟩
  · rw [show noiseEx 0 0 = 1 / 2 from rfl]
    rw [abs_of_nonneg (by norm_num : (0 : ℝ) ≤ 1 / 2)]
    norm_num
  · rw [fft2_of_output_chEx, fft2_chEx 0 0]
    norm_num [Complex.abs_ofReal]

/-- C3 amended: what `scramble_phase` preserves exactly is the magnitude
of the reconstructed spectrum `fshift_new = magnitude * exp(1j*phase)`
inside the transform — for every channel, noise draw and coefficient its
magnitude equals the input spectrum's magnitude.  The emitted frame,
however, passes through `np.abs` of the inverse FFT and a `uint8` cast,
after which the FFT magnitude of the output generally differs from the
input's (see the counterexample). -/
theorem C3_recon_magnitude {m n : ℕ} (noise : Matrix (Fin m) (Fin n) ℝ)
    (ch : Matrix (Fin m) (Fin n) ℕ) (k : Fin m) (l : Fin n) :
    Complex.abs (scramble_recon noise ch k l) = Complex.abs (channelSpectrum ch k l) := by
  unfold scramble_recon
  rw [map_mul, Complex.abs_exp_ofReal_mul_I, Complex.abs_ofReal,
    abs_of_nonneg (Complex.abs.nonneg _), mul_one]

/-!  C6 — per-frame error containment. -/

theorem gatherResults_error (worker : ℤ → Frame → Except PyErr (ℤ × Frame))
    (l : List (ℤ × Frame)) (p : ℤ × Frame) (e : PyErr)
    (hp : p ∈ l) (he : worker p.1 p.2 = .error e) :
    ∃ e2, gatherResults worker l = .error e2 := by
  induction l with
  | nil => cases hp
  | cons q rest ih =>
    cases hq : worker q.1 q.2 with
    | error e3 => exact ⟨e3, by simp [gatherResults, hq, Bind.bind, Except.bind]⟩
    | ok v =>
      rcases List.mem_cons.mp hp with rfl | hp2
      · rw [hq] at he
        cases he
      · obtain ⟨e2, h2⟩ := ih hp2
        exact ⟨e2, by simp [gatherResults, hq, h2, Bind.bind, Except.bind]⟩

/-- C6 counterexample: with the dynamic border enabled, `border_width = 3`,
`border_style = 'solid'` and the unparsable color string `"red"` (which
`config.validate` accepts, since border colors are never validated), the
per-frame `hex_to_bgr` call raises `ValueError` inside
`apply_dynamic_border`; `_process_single_frame` has no `try/except`, and
`_process_batch` re-raises it through `future.result()` — the single bad
frame aborts the whole batch instead of degrading to "effect skipped". -/
theorem C6_containment_counterexample :
    processSingleFrame trivPrims trivExt cfgBorderBad 3 2 2 0 testFrame =
      .error PyErr.valueError ∧
    processBatch (processSingleFrame trivPrims trivExt cfgBorderBad 3 2 2)
        [(0, testFrame)] = .error PyErr.valueError := by
  exact ⟨rfl, rfl⟩

/-- C6 amended: per-frame error containment exists only around the sticker
asset loading — `apply_sticker` catches every failure of its `try` block
and always returns a frame — while an exception in any other per-frame
effect (for example the dynamic border's color parsing) propagates out of
`_process_single_frame`, and `_process_batch` re-raises the first worker
exception via `future.result()`, aborting the batch. -/
theorem C6_error_containment (P : Prims) (E : Ext) (cfg : VideoConfig)
    (i total : ℤ) (oh ow : ℕ) (f : Frame) (batch : List (ℤ × Frame)) :
    (∃ f2, apply_sticker P E cfg i f = .ok f2) ∧
    (∀ p ∈ batch, ∀ e : PyErr,
      processSingleFrame P E cfg total oh ow p.1 p.2 = .error e →
      ∃ e2, processBatch (processSingleFrame P E cfg total oh ow) batch = .error e2) := by
  constructor
  · simp only [apply_sticker]
    split
    · exact ⟨f, rfl⟩
    split
    · exact ⟨f, rfl⟩
    split
    · exact ⟨f, rfl⟩
    · cases hb : stickerTryBody P E
        (if 0 < cfg.sticker_change_interval then
          ((i / cfg.sticker_change_interval).emod (E.stickerFiles.length : ℤ)).toNat
        else match E.stickerCacheIdx with
          | some idx => idx
          | none => E.stickerRandIdx) f with
      | ok f2 => exact ⟨f2, rfl⟩
      | error e3 => exact ⟨f, rfl⟩
  · intro p hp e he
    obtain ⟨e2, h2⟩ :=
      gatherResults_error (processSingleFrame P E cfg total oh ow) batch p e hp he
    exact ⟨e2, by simp [processBatch, h2, Bind.bind, Except.bind]⟩

/-- C6 witness: the amended containment theorem applied to the concrete
bad-border configuration and a one-frame batch. -/
theorem C6_error_containment_witness :
    (∃ f2, apply_sticker trivPrims trivExt cfgBorderBad 0 testFrame = .ok f2) ∧
    (∃ e2, processBatch (processSingleFrame trivPrims trivExt cfgBorderBad 3 2 2)
      [(0, testFrame)] = .error e2) := by
  have h := C6_error_containment trivPrims trivExt cfgBorderBad 0 3 2 2 testFrame
    [(0, testFrame)]
  exact ⟨h.1, h.2 (0, testFrame) (List.mem_singleton.mpr rfl) PyErr.valueError rfl⟩

end Dedup
